import Mathlib

/-!
Verification development for the git-flow branch-lifecycle scripts of the
`runcmd` repository.  The JavaScript sources under `scripts/` are shallowly
embedded: pure helpers become Lean functions and the command handlers become
functions over an explicit effect state (repository snapshot, executed
subprocess commands, log lines, prompt queue).
-/

namespace GitFlowSpec

set_option linter.unreachableTactic false
set_option linter.unusedTactic false

/-! ### JavaScript string primitives

The scripts use a small set of string operations: `split` on a separator
character, `includes` (substring test), `trim`, `startsWith`, `replace` of a
first occurrence, `toLowerCase`, and `Number` conversion.  They are embedded
here over `List Char` with `String` wrappers.
-/

/-- JS `s.split(sep)` for a one-character separator: always returns a
non-empty list of (possibly empty) chunks. -/
def splitCh (sep : Char) : List Char → List (List Char)
  | [] => [[]]
  | c :: t =>
    if c = sep then [] :: splitCh sep t
    else
      match splitCh sep t with
      | h :: r => (c :: h) :: r
      | [] => [[c]]

theorem splitCh_ne_nil (sep : Char) (l : List Char) : splitCh sep l ≠ [] := by
  induction l with
  | nil => simp [splitCh]
  | cons c t ih =>
    simp only [splitCh]
    split
    · simp
    · cases h : splitCh sep t with
      | nil => simp
      | cons a r => simp

/-- JS `big.includes(pat)`: substring occurrence test. -/
def hasInfix (pat : List Char) : List Char → Bool
  | [] => pat.isEmpty
  | c :: t => pat.isPrefixOf (c :: t) || hasInfix pat t

theorem hasInfix_of_isPrefixOf (pat l : List Char) (h : pat.isPrefixOf l = true) :
    hasInfix pat l = true := by
  cases l with
  | nil =>
    cases pat with
    | nil => rfl
    | cons a t => simp [List.isPrefixOf] at h
  | cons c t => simp [hasInfix, h]

/-- JS `big.includes(pat)` on `String`s. -/
def strIncludes (big pat : String) : Bool := hasInfix pat.data big.data

/-- JS falsiness test for an optional string (undefined and "" are falsy). -/
def truthy : Option String → Bool
  | none => false
  | some s => s ≠ ""

/-- JS `a || d` for an optional string `a` and default `d`. -/
def jsOr (a : Option String) (d : String) : String :=
  match a with
  | none => d
  | some s => if s = "" then d else s

/-- JS `Number(s)` restricted to the shapes that occur here: a non-empty
all-digit string denotes its decimal value, the empty string denotes 0 and
anything else is NaN (`none`). -/
def jsNumber (s : String) : Option Nat :=
  if s = "" then some 0
  else if s.data.all Char.isDigit then some (s.data.foldl (fun a c => 10 * a + (c.toNat - 48)) 0)
  else none

/-- JS `>` on two possibly-NaN numbers (NaN comparisons are false). -/
def jsGt : Option Nat → Option Nat → Bool
  | some a, some b => a > b
  | _, _ => false

/-- JS `<` on two possibly-NaN numbers. -/
def jsLt : Option Nat → Option Nat → Bool
  | some a, some b => a < b
  | _, _ => false

/-- JS `x + 1` on a possibly-NaN number. -/
def jsAdd1 : Option Nat → Option Nat
  | some a => some (a + 1)
  | none => none

/-- JS template interpolation of a possibly-NaN number. -/
def jsNumStr : Option Nat → String
  | some a => toString a
  | none => "NaN"

/-- JS `s.replace("*", "")`: removes the first `*` occurrence only. -/
def removeFirstStar : List Char → List Char
  | [] => []
  | c :: t => if c = '*' then t else c :: removeFirstStar t

/-- JS `s.startsWith(pre)`. -/
def jsStartsWith (s pre : String) : Bool := pre.data.isPrefixOf s.data

/-- JS `s.trim()`: drop leading and trailing whitespace. -/
def trimChars (cs : List Char) : List Char :=
  ((cs.dropWhile Char.isWhitespace).reverse.dropWhile Char.isWhitespace).reverse

def jsTrim (s : String) : String := String.mk (trimChars s.data)

/-- JS `s.replace(/^v/, "")`: strips a single leading `v`. -/
def stripLeadingV (s : String) : String :=
  match s.data with
  | 'v' :: t => String.mk t
  | _ => s

/-! ### Version model (`scripts/lib/version.js`)

`validateVersion` applies the regex
`^(0|[1-9]\d*)\.(0|[1-9]\d*)\.(0|[1-9]\d*)$`.  Since none of the three
alternatives can contain a dot, a string matches the regex exactly when
splitting it on `.` yields three chunks each matching `0|[1-9]\d*`; the
embedding uses that decomposition.
-/

/-- One numeric component: the regex alternative `0|[1-9]\d*`
(a lone zero, or a digit string with no leading zero). -/
def numPart (p : List Char) : Bool :=
  p = ['0'] || (!p.isEmpty && p.all Char.isDigit && p.head? ≠ some '0')

/-- `validateVersion` from `scripts/lib/version.js`. -/
def validateVersion (s : String) : Bool :=
  match splitCh '.' s.data with
  | [a, b, c] => numPart a && numPart b && numPart c
  | _ => false

/-- The record produced by `parseVersion` (fields may be NaN on garbage
input, mirroring `Number`). -/
structure SemParts where
  major : Option Nat
  minor : Option Nat
  patch : Option Nat
  deriving Repr, DecidableEq

/-- `parseVersion` from `scripts/lib/version.js`:
`version.split(".").map(Number)` destructured into `{major, minor, patch}`;
missing positions are `undefined`, which behaves like NaN downstream. -/
def parseVersion (version : String) : SemParts :=
  let parts := (splitCh '.' version.data).map (fun p => jsNumber (String.mk p))
  { major := (parts.get? 0).join
    minor := (parts.get? 1).join
    patch := (parts.get? 2).join }

/-- `incrementVersion` from `scripts/lib/version.js`: bumps the requested
component, and returns the input unchanged for an unrecognized kind. -/
def incrementVersion (version : String) (bump : Option String) : String :=
  let p := parseVersion version
  match (jsOr bump "").toLower with
  | "major" => jsNumStr (jsAdd1 p.major) ++ ".0.0"
  | "minor" => jsNumStr p.major ++ "." ++ jsNumStr (jsAdd1 p.minor) ++ ".0"
  | "patch" => jsNumStr p.major ++ "." ++ jsNumStr p.minor ++ "." ++ jsNumStr (jsAdd1 p.patch)
  | _ => version

/-- `compareVersions` from `scripts/lib/version.js`: component-wise loop over
the first three split positions (the JS loop over `i = 0..2`, unrolled). -/
def compareVersions (a b : String) : Int :=
  let pa := (splitCh '.' a.data).map (fun p => jsNumber (String.mk p))
  let pb := (splitCh '.' b.data).map (fun p => jsNumber (String.mk p))
  if jsGt ((pa.get? 0).join) ((pb.get? 0).join) then 1
  else if jsLt ((pa.get? 0).join) ((pb.get? 0).join) then -1
  else if jsGt ((pa.get? 1).join) ((pb.get? 1).join) then 1
  else if jsLt ((pa.get? 1).join) ((pb.get? 1).join) then -1
  else if jsGt ((pa.get? 2).join) ((pb.get? 2).join) then 1
  else if jsLt ((pa.get? 2).join) ((pb.get? 2).join) then -1
  else 0

/-- The `parse(text) -> SemVer | null` contract of the spec, as realized by
the code: every consumer (`readVersion`, `promptVersion`) guards
`parseVersion` behind `validateVersion`, so parsing fails exactly when the
regex rejects. -/
def parse (s : String) : Option SemParts :=
  if validateVersion s then some (parseVersion s) else none

/-! Canonical rendering of a semantic version, used to state the
round-trip direction of C8. -/

/-- Decimal digit character for `k < 10`. -/
def digitChar : Nat → Char
  | 0 => '0' | 1 => '1' | 2 => '2' | 3 => '3' | 4 => '4'
  | 5 => '5' | 6 => '6' | 7 => '7' | 8 => '8' | _ => '9'

/-- Decimal representation of a natural number (no leading zeros). -/
def natChars (n : Nat) : List Char :=
  if _h : n < 10 then [digitChar n]
  else natChars (n / 10) ++ [digitChar (n % 10)]
  decreasing_by exact Nat.div_lt_self (by omega) (by omega)

/-- Canonical `major.minor.patch` string. -/
def semverString (a b c : Nat) : String :=
  String.mk (natChars a ++ ('.' :: (natChars b ++ ('.' :: natChars c))))

theorem digitChar_toNat (k : Nat) (h : k < 10) : (digitChar k).toNat = 48 + k := by
  interval_cases k <;> rfl

theorem digitChar_isDigit (k : Nat) (h : k < 10) : (digitChar k).isDigit = true := by
  interval_cases k <;> rfl

theorem natChars_ne_nil (n : Nat) : natChars n ≠ [] := by
  rw [natChars]
  split
  · simp
  · simp

theorem natChars_all_digit (n : Nat) : (natChars n).all Char.isDigit = true := by
  induction n using Nat.strong_induction_on with
  | _ n ih =>
    rw [natChars]
    split
    · simpa using digitChar_isDigit n ‹n < 10›
    · rename_i h
      have h10 : 10 ≤ n := by omega
      have ihd := ih (n / 10) (Nat.div_lt_self (by omega) (by omega))
      simp only [List.all_append, ihd, Bool.true_and, List.all_cons, List.all_nil,
        Bool.and_true]
      exact digitChar_isDigit _ (Nat.mod_lt _ (by omega))

theorem natChars_zero : natChars 0 = ['0'] := by rw [natChars]; rfl

theorem natChars_head_ne_zero (n : Nat) (h : 1 ≤ n) :
    (natChars n).head? ≠ some '0' := by
  induction n using Nat.strong_induction_on with
  | _ n ih =>
    rw [natChars]
    split
    · rename_i hlt
      interval_cases n <;> decide
    · rename_i hge
      have h10 : 10 ≤ n := by omega
      have hne := natChars_ne_nil (n / 10)
      have ihd := ih (n / 10) (Nat.div_lt_self (by omega) (by omega)) (by omega)
      cases hd : natChars (n / 10) with
      | nil => exact absurd hd hne
      | cons a t =>
        rw [hd] at ihd
        simpa using ihd

theorem numPart_natChars (n : Nat) : numPart (natChars n) = true := by
  cases n with
  | zero => rw [natChars_zero]; rfl
  | succ m =>
    have hd := natChars_all_digit (m + 1)
    have hne := natChars_ne_nil (m + 1)
    have hh := natChars_head_ne_zero (m + 1) (by omega)
    simp only [numPart, Bool.or_eq_true, Bool.and_eq_true, decide_eq_true_eq]
    right
    refine ⟨⟨by simpa [List.isEmpty_iff] using hne, hd⟩, by simpa using hh⟩

theorem foldl_val_natChars (n : Nat) :
    (natChars n).foldl (fun a c => 10 * a + (c.toNat - 48)) 0 = n := by
  induction n using Nat.strong_induction_on with
  | _ n ih =>
    rw [natChars]
    split
    · rename_i hlt
      simp [digitChar_toNat n hlt]
    · rename_i hge
      have h10 : 10 ≤ n := by omega
      rw [List.foldl_append]
      have ihd := ih (n / 10) (Nat.div_lt_self (by omega) (by omega))
      rw [ihd]
      simp only [List.foldl_cons, List.foldl_nil,
        digitChar_toNat (n % 10) (Nat.mod_lt _ (by omega))]
      omega

theorem dot_not_mem_natChars (n : Nat) : '.' ∉ natChars n := by
  intro hmem
  have hall := natChars_all_digit n
  rw [List.all_eq_true] at hall
  have := hall _ hmem
  simp [Char.isDigit] at this

theorem splitCh_sepFree (sep : Char) (l : List Char) (h : sep ∉ l) :
    splitCh sep l = [l] := by
  induction l with
  | nil => rfl
  | cons c t ih =>
    simp only [List.mem_cons, not_or] at h
    have hcs : ¬(c = sep) := fun hc => h.1 (Eq.symm hc)
    simp only [splitCh, if_neg hcs, ih h.2]

theorem splitCh_append (sep : Char) (l₁ l₂ : List Char) (h : sep ∉ l₁) :
    splitCh sep (l₁ ++ sep :: l₂) = l₁ :: splitCh sep l₂ := by
  induction l₁ with
  | nil => simp [splitCh]
  | cons c t ih =>
    simp only [List.mem_cons, not_or] at h
    have hcs : ¬(c = sep) := fun hc => h.1 (Eq.symm hc)
    have ih' : splitCh sep (t.append (sep :: l₂)) = t :: splitCh sep l₂ := ih h.2
    simp only [List.cons_append, splitCh, if_neg hcs, ih']

theorem splitCh_semverString (a b c : Nat) :
    splitCh '.' (semverString a b c).data = [natChars a, natChars b, natChars c] := by
  show splitCh '.' (natChars a ++ ('.' :: (natChars b ++ ('.' :: natChars c)))) =
    [natChars a, natChars b, natChars c]
  rw [splitCh_append '.' _ _ (dot_not_mem_natChars a),
    splitCh_append '.' _ _ (dot_not_mem_natChars b),
    splitCh_sepFree '.' _ (dot_not_mem_natChars c)]

theorem jsNumber_natChars (n : Nat) : jsNumber (String.mk (natChars n)) = some n := by
  have hne : String.mk (natChars n) ≠ "" := by
    intro hcontr
    exact natChars_ne_nil n (congrArg String.data hcontr)
  simp only [jsNumber, if_neg hne]
  rw [if_pos (natChars_all_digit n), foldl_val_natChars]

theorem validateVersion_semverString (a b c : Nat) :
    validateVersion (semverString a b c) = true := by
  simp only [validateVersion, splitCh_semverString, numPart_natChars, Bool.and_self]

theorem parseVersion_semverString (a b c : Nat) :
    parseVersion (semverString a b c) = ⟨some a, some b, some c⟩ := by
  simp only [parseVersion, splitCh_semverString, List.map_cons, List.map_nil,
    jsNumber_natChars]
  rfl

/-! ### Subprocess command model

Every subprocess the scripts spawn goes through `runGit`/`runGitFlow` in
`scripts/git-flow.js`.  Each call site's command line is represented by a
constructor carrying the interpolated pieces; `cmdString` rebuilds the exact
argument string (`git ` is prepended by the adapter, so `git flow`
subcommands carry a leading `flow`).
-/

inductive GCmd where
  /-- `status --porcelain` -/
  | status : GCmd
  /-- `show-ref --verify --quiet refs/heads/<branch>` -/
  | showRef (branch : String) : GCmd
  /-- `tag -l` -/
  | tagList : GCmd
  /-- `config --get <key>` -/
  | configGet (key : String) : GCmd
  /-- `flow version` -/
  | flowVersion : GCmd
  /-- `describe --tags --abbrev=0` -/
  | describe : GCmd
  /-- `log <range> --pretty=format:"- %s"` -/
  | logPretty (range : String) : GCmd
  /-- `branch --list "<glob>"` -/
  | branchList (glob : String) : GCmd
  /-- `flow config` -/
  | flowConfig : GCmd
  /-- `checkout <branch>` -/
  | checkout (branch : String) : GCmd
  /-- `pull --ff-only origin <branch>` -/
  | pullFF (branch : String) : GCmd
  /-- `push -u origin <branch>` -/
  | pushUpstream (branch : String) : GCmd
  /-- `add <files>` -/
  | add (files : String) : GCmd
  /-- `commit -m "<msg>"` -/
  | commit (msg : String) : GCmd
  /-- `branch -D <branch>` -/
  | branchDeleteForce (branch : String) : GCmd
  /-- `tag -a <tag> -m "<msg>"` -/
  | tagAnnotate (tag msg : String) : GCmd
  /-- `push origin --delete <branch>` -/
  | pushDelete (branch : String) : GCmd
  /-- `flow <type> start <name> <base>` -/
  | flowStart (ty name base : String) : GCmd
  /-- `flow <type> finish <flags> <name>` with the flags the call sites
  accumulate: `-p` when pushing, `--squash`, `-T <tag>`, `-m "<msg>"`. -/
  | flowFinish (ty : String) (p squash : Bool) (tag msg : Option String) (name : String) : GCmd
  /-- the curl/sudo git-flow installer shell line -/
  | installer : GCmd
  deriving Repr, DecidableEq

/-- Does the command mutate the working copy / repository (as opposed to a
read-only query)?  `status`, `show-ref`, `tag -l`, `config --get`,
`flow version`, `describe`, `log`, `branch --list` and `flow config` only
read; everything else writes. -/
def mutating : GCmd → Bool
  | .status | .showRef _ | .tagList | .configGet _ | .flowVersion
  | .describe | .logPretty _ | .branchList _ | .flowConfig => false
  | _ => true

/-- Snapshot of the observable world: local repository state, the two
tracked files, and canned outputs for the oracle-like read-only queries. -/
structure Repo where
  /-- local branch names (full refs such as `release/v1.10.0`) -/
  branches : List String
  /-- tag names (such as `v1.9.0`) -/
  tags : List String
  /-- output of `git status --porcelain` (empty iff the tree is clean) -/
  statusOut : String
  /-- `git config --get gitflow.branch.master` (None = unset, exit 1) -/
  gitflowMaster : Option String
  /-- whether `git flow version` succeeds -/
  flowAvailable : Bool
  /-- output of `git describe --tags --abbrev=0` (None = no tag reachable) -/
  describeOut : Option String
  /-- output of `git log .. --pretty=format:"- %s"` -/
  logOut : String
  /-- contents of `version.txt` (None = file absent) -/
  versionTxt : Option String
  /-- contents of `CHANGELOG.md` (None = file absent) -/
  changelog : Option String
  deriving Repr, DecidableEq

/-- Glob match for the only patterns used (`release/*`, `hotfix/*`):
a literal piece followed by a trailing `*`. -/
def globMatch (glob b : String) : Bool :=
  match glob.data.reverse with
  | '*' :: restRev => restRev.reverse.isPrefixOf b.data
  | _ => glob = b

/-- Join output lines the way `git` prints them (one item per line). -/
def joinLines : List String → String
  | [] => ""
  | [s] => s
  | s :: rest => s ++ "\n" ++ joinLines rest

/-- Result (`none` = non-zero exit) of running a command, and its effect on
the repository.  Read-only commands report the corresponding `Repo` oracle
field and leave the state alone; mutating commands get the natural
success-semantics (create/delete branch, create tag, and so on). -/
def execCmd : GCmd → Repo → Option String × Repo
  | .status, r => (some r.statusOut, r)
  | .showRef b, r => (if r.branches.contains b then some "" else none, r)
  | .tagList, r => (some (joinLines r.tags), r)
  | .configGet k, r => (if k = "gitflow.branch.master" then r.gitflowMaster else none, r)
  | .flowVersion, r => (if r.flowAvailable then some "1.12.3 (AVH Edition)" else none, r)
  | .describe, r => (r.describeOut, r)
  | .logPretty _, r => (some r.logOut, r)
  | .branchList glob, r => (some (joinLines (r.branches.filter (globMatch glob))), r)
  | .flowConfig, r => (some "", r)
  | .checkout b, r => (if r.branches.contains b then some "" else none, r)
  | .pullFF _, r => (some "", r)
  | .pushUpstream _, r => (some "", r)
  | .add _, r => (some "", r)
  | .commit _, r => (some "", r)
  | .branchDeleteForce b, r => (some "", { r with branches := r.branches.erase b })
  | .tagAnnotate t _, r => (some "", { r with tags := r.tags ++ [t] })
  | .pushDelete _, r => (some "", r)
  | .flowStart ty n _, r => (some "", { r with branches := r.branches ++ [ty ++ "/" ++ n] })
  | .flowFinish ty _ _ tag _ n, r =>
    (some "", { r with
      branches := r.branches.erase (ty ++ "/" ++ n)
      tags := match tag with | some t => r.tags ++ [t] | none => r.tags })
  | .installer, r => (some "", r)

theorem execCmd_repo_of_not_mutating (c : GCmd) (r : Repo) (h : mutating c = false) :
    (execCmd c r).2 = r := by
  cases c <;> simp_all [mutating, execCmd]

/-! ### Log lines and the effect state -/

inductive LogKind where
  | info | warn | error | success
  deriving Repr, DecidableEq

/-- Structured log messages.  Each constructor corresponds to one
`logInfo`/`logWarn`/`logError`/`logSuccess` call site; interpolated values
are carried as payloads and incidental info/success lines share the
generic `note` constructor. -/
inductive Msg where
  /-- `[dry-run] git <cmd>` -/
  | dryRunCmd (c : GCmd)
  /-- `git <cmd> failed` -/
  | cmdFailed (c : GCmd)
  /-- "Uncommitted changes detected. Please commit or stash them first." -/
  | uncommitted
  /-- "Required branch 'x' not found." -/
  | branchNotFound (name : String)
  /-- "Branch 'x' already exists." -/
  | branchExistsErr (name : String)
  /-- "Tag x already exists." -/
  | tagExistsErr (tag : String)
  /-- "Git Flow is not initialized. ..." -/
  | notInitialized
  /-- "git-flow not available (offline). Install it first." -/
  | flowMissingOffline
  /-- "git-flow not found. Re-run with --auto-install ..." -/
  | flowNotFoundWarn
  /-- "[dry-run] would install git-flow using upstream installer" -/
  | wouldInstall
  /-- "git-flow installation failed" -/
  | installFailed
  /-- "git-flow is required for <what>" -/
  | flowRequired (what : String)
  /-- "--tag and --message are required for <which> finish" -/
  | tagMsgRequired (which : String)
  /-- "Both <type> and <name> are required" -/
  | typeNameRequired
  /-- "version.txt not found at <path>" -/
  | versionFileMissing
  /-- "Invalid version format in version.txt: v" -/
  | invalidVersionInFile (v : String)
  /-- "--version must be semver x.y.z" -/
  | versionMustBeSemver
  /-- "Invalid version format" -/
  | invalidVersionFormat
  /-- "New version x cannot be lower than current y" -/
  | versionRegression (newV curV : String)
  /-- "[dry-run] would write version.txt => v" -/
  | wouldWriteVersion (v : String)
  /-- "Changelog already contains this version. Skipping." -/
  | changelogHasVersion
  /-- "[dry-run] would update CHANGELOG.md with v<v>" -/
  | wouldUpdateChangelog (v : String)
  /-- "--push ignored in offline mode" -/
  | pushIgnoredOffline
  /-- "Dry-run completed. No changes were applied." -/
  | dryRunCompleted
  /-- "No files were changed (version/changelog). Check your inputs." -/
  | noFilesChanged
  /-- "Invalid branch type: t" -/
  | invalidBranchType (ty : String)
  /-- "Invalid <t> branch name: <n>. Use alphanumeric characters, ..." -/
  | invalidBranchName (name ty : String)
  /-- "Force mode: will delete existing branch b if it exists" -/
  | forceModeWarn (branch : String)
  /-- "No release/hotfix branches found." -/
  | noBranchesFound
  /-- "Multiple branches found; specify --branch." -/
  | multipleBranches
  /-- "Invalid selection" -/
  | invalidSelection
  /-- "Branch 'b' does not match type 't'." -/
  | typeMismatch (branch ty : String)
  /-- "Branch must be release/* or hotfix/*" -/
  | mustBeReleaseOrHotfix
  /-- "Branch name must include version (e.g., release/v1.2.0)" -/
  | mustIncludeVersion
  /-- `release-finalize` variant (part_008 `requireBranchVersion`):
  "Branch version (x) differs from version.txt (y). Using version.txt." -/
  | branchVersionDiffers (branchV fileV : String)
  /-- "Merge of s into t failed. Resolve conflicts and retry." -/
  | mergeFailed (source target : String)
  /-- any remaining informational / success line, by its literal text -/
  | note (text : String)
  deriving Repr, DecidableEq

structure LogLine where
  kind : LogKind
  msg : Msg
  deriving Repr, DecidableEq

/-- The full effect state threaded through a run: the repository snapshot,
the subprocess commands actually executed (dry-run logging excluded), the
log, queued interactive answers, raw `console.log` output lines, today's
date (for changelog headings) and the CI environment indicator. -/
structure Eff where
  repo : Repo
  executed : List GCmd
  logs : List LogLine
  stdin : List String
  shown : List String
  today : String
  ci : Bool
  deriving Repr, DecidableEq

def Eff.log (e : Eff) (k : LogKind) (m : Msg) : Eff :=
  { e with logs := e.logs ++ [⟨k, m⟩] }

def Eff.info (e : Eff) (m : Msg) : Eff := e.log .info m

def Eff.exec (e : Eff) (c : GCmd) : Eff :=
  { e with repo := (execCmd c e.repo).2, executed := e.executed ++ [c] }

/-- Outcome of a handler: normal return, or `process.exit(code)`. -/
inductive Outcome (α : Type) where
  | ok (a : α) (e : Eff)
  | exit (code : Nat) (e : Eff)
  deriving Repr, DecidableEq

/-- The effect state an outcome carries. -/
def Outcome.eff {α : Type} : Outcome α → Eff
  | .ok _ e => e
  | .exit _ e => e

/-- Handler monad: sequential, deterministic, aborting on `process.exit`. -/
def M (α : Type) : Type := Eff → Outcome α

instance : Monad M where
  pure a := fun e => .ok a e
  bind m f := fun e =>
    match m e with
    | .ok a e' => f a e'
    | .exit c e' => .exit c e'

@[simp] theorem pure_apply {α : Type} (a : α) (e : Eff) :
    (pure a : M α) e = .ok a e := rfl

@[simp] theorem bind_apply {α β : Type} (m : M α) (f : α → M β) (e : Eff) :
    (m >>= f) e = match m e with
      | .ok a e' => f a e'
      | .exit c e' => .exit c e' := rfl

/-- `process.exit(1)` (the error line, when any, was already logged). -/
def exit1 {α : Type} : M α := fun e => .exit 1 e

/-- The ubiquitous `logError(msg); process.exit(1)` pattern. -/
def fatal {α : Type} (m : Msg) : M α := fun e => .exit 1 (e.log .error m)

/-- `fatal` at result type `Unit` (for statement position in `do` blocks). -/
def fatalU : Msg → M Unit := fatal

def logI (m : Msg) : M Unit := fun e => .ok () (e.log .info m)

def logW (m : Msg) : M Unit := fun e => .ok () (e.log .warn m)

def logE (m : Msg) : M Unit := fun e => .ok () (e.log .error m)

def logS (m : Msg) : M Unit := fun e => .ok () (e.log .success m)

/-- A raw `console.log` (help screens, prompt menus, summaries). -/
def showLine (s : String) : M Unit := fun e => .ok () { e with shown := e.shown ++ [s] }

/-- A `forEach`/`console.log` loop printing one line per list element. -/
def showLines (ls : List String) : M Unit := fun e => .ok () { e with shown := e.shown ++ ls }

/-- `process.env.CI === "true"` -/
def getCI : M Bool := fun e => .ok e.ci e

/-- `new Date().toISOString().slice(0, 10)` -/
def getToday : M String := fun e => .ok e.today e

/-- `existsSync(CHANGELOG_FILE) ? readFileSync(CHANGELOG_FILE) : ""` -/
def getChangelog : M String := fun e => .ok (e.repo.changelog.getD "") e

/-- `existsSync(CHANGELOG_FILE)` -/
def changelogFileExists : M Bool := fun e => .ok (e.repo.changelog ≠ none) e

/-- `writeFileSync(CHANGELOG_FILE, c)` -/
def writeChangelog (c : String) : M Unit :=
  fun e => .ok () { e with repo := { e.repo with changelog := some c } }

/-- `existsSync(VERSION_FILE) ? some contents : none` -/
def getVersionTxt : M (Option String) := fun e => .ok e.repo.versionTxt e

/-- `writeFileSync(VERSION_FILE, c)` -/
def writeVersionTxt (c : String) : M Unit :=
  fun e => .ok () { e with repo := { e.repo with versionTxt := some c } }

/-- `promptText` / `promptTextSync` (`scripts/lib/prompts.js`): print the
question, then return the next queued stdin answer, trimmed. -/
def promptText (question : String) : M String := fun e =>
  match e.stdin with
  | [] => .ok "" { e with shown := e.shown ++ [question] }
  | a :: rest => .ok (jsTrim a) { e with stdin := rest, shown := e.shown ++ [question] }

def promptTextSync : String → M String := promptText

/-! ### The adapter (`runGit` / `runGitFlow`, `scripts/git-flow.js`)

`runGitFlow` differs from `runGit` only by the `git flow ` command prefix;
since the `flow*` constructors of `GCmd` carry that prefix themselves, both
are the same function here.
-/

structure RunOpts where
  allowFail : Bool := false
  dryRun : Bool := false
  pipeStdout : Bool := false
  deriving Repr, DecidableEq

def runGit (c : GCmd) (o : RunOpts) : M (Option String) := fun e =>
  if o.dryRun then .ok (some "") (e.info (.dryRunCmd c))
  else
    match execCmd c e.repo with
    | (some out, _) => .ok (some out) (e.exec c)
    | (none, _) =>
      if o.allowFail then .ok none (e.exec c)
      else .exit 1 ((e.exec c).log .error (.cmdFailed c))

def runGitFlow : GCmd → RunOpts → M (Option String) := runGit

/-! ### Shared guards and helpers (`scripts/git-flow.js`) -/

def ensureCleanTree : M Unit := do
  let status ← runGit .status { allowFail := true }
  match status with
  | some s => if s.length > 0 then fatal .uncommitted else pure ()
  | none => pure ()

def ensureBranchExists (name : String) : M Unit := do
  let res ← runGit (.showRef name) { allowFail := true }
  match res with
  | none => fatal (.branchNotFound name)
  | some _ => pure ()

def ensureBranchMissing (name : String) : M Unit := do
  let ex ← runGit (.showRef name) { allowFail := true }
  match ex with
  | none => pure ()
  | some _ => fatal (.branchExistsErr name)

/-- `ensureTagMissing(version)`: prepend `v` unless the argument already
starts with one, then look the tag up in `git tag -l`. -/
def ensureTagMissing (version : String) : M Unit := do
  let tagName := if jsStartsWith version "v" then version else "v" ++ version
  let tagsOut ← runGit .tagList { allowFail := true }
  let tags := jsOr tagsOut ""
  if ((splitCh '\n' tags.data).map String.mk).contains tagName then
    fatal (.tagExistsErr tagName)
  else pure ()

def ensureGitFlowInitialized : M Unit := do
  let config ← runGit (.configGet "gitflow.branch.master") { allowFail := true }
  if truthy config then pure () else fatal .notInitialized

def ensureGitFlowAvailable (autoInstall offline dryRun : Bool) : M Bool := do
  let available ← runGit .flowVersion { allowFail := true, dryRun := dryRun }
  if available ≠ none then pure true
  else if offline then fatal .flowMissingOffline
  else if !autoInstall then do
    logW .flowNotFoundWarn
    pure false
  else if dryRun then do
    logI .wouldInstall
    pure false
  else do
    logI (.note "Installing git-flow (requires curl and sudo)...")
    let _ ← runGit .installer {}
    logS (.note "git-flow installed")
    pure true

def checkout (branch : String) (o : RunOpts) : M (Option String) :=
  runGit (.checkout branch) o

def pullBranch (branch : String) (dryRun offline : Bool) : M Unit := do
  if offline then pure ()
  else do
    let _ ← checkout branch { dryRun := dryRun }
    let _ ← runGit (.pullFF branch) { dryRun := dryRun, allowFail := true }
    pure ()

/-- JS `\w` plus hyphen: the character class of `^[\w-]+$`. -/
def wordHyphenChar (c : Char) : Bool := c.isAlphanum || c = '_' || c = '-'

/-- The regex `^[\w-]+$` used by `validateBranchName` for all four types. -/
def matchesWordHyphen (s : String) : Bool :=
  !s.data.isEmpty && s.data.all wordHyphenChar

def validateBranchName (name ty : String) : M Bool := do
  if ty = "feature" || ty = "release" || ty = "hotfix" || ty = "support" then
    if matchesWordHyphen name then pure true
    else do
      logE (.invalidBranchName name ty)
      pure false
  else do
    logE (.invalidBranchType ty)
    pure false

/-! ### Option record (`parseArgs` in `scripts/git-flow.js`)

One structure for the dynamic `opts` bags.  `type` is spelled `ty` (Lean
keyword).  `name` defaults to `"nextRelease"` exactly as `parseArgs`
initializes it; handlers called with an absent field receive `none`.
-/

structure Opts where
  name : Option String := some "nextRelease"
  base : Option String := none
  force : Bool := false
  tag : Option String := none
  message : Option String := none
  push : Bool := false
  keepBranch : Bool := false
  offline : Bool := false
  dryRun : Bool := false
  ty : Option String := none
  bump : Option String := none
  version : Option String := none
  fetch : Bool := false
  squash : Bool := false
  noChangelog : Bool := false
  yes : Bool := false
  help : Bool := false
  branch : Option String := none
  json : Bool := false
  deriving Repr, DecidableEq

/-! ### Changelog generator (`scripts/lib/changelog.js`) -/

def getLastTag : M (Option String) := do
  let tag ← runGit .describe { allowFail := true }
  pure (if truthy tag then tag else none)

def collectCommitsSince (ref : Option String) : M (List String) := do
  let range := match ref with
    | some r => if r = "" then "HEAD" else r ++ "..HEAD"
    | none => "HEAD"
  let commits ← runGit (.logPretty range) { allowFail := true }
  match commits with
  | none => pure []
  | some s =>
    if s = "" then pure []
    else pure ((((splitCh '\n' s.data)).map String.mk).filter (· ≠ ""))

/-- The text block prepended for a version: `sectionLines.join("\n")` for
`["## v<version> - <date>", <commits or placeholder>, ""]`. -/
def changelogSection (version date : String) (commits : List String) : String :=
  "## v" ++ version ++ " - " ++ date ++ "\n" ++
    (if commits.isEmpty then "- Internal changes" else joinLines commits) ++ "\n"

def appendChangelog (version : String) (opts : Opts) : M Bool := do
  let existing ← getChangelog
  if strIncludes existing ("## v" ++ version) then do
    logI .changelogHasVersion
    pure false
  else do
    let lastTag ← getLastTag
    let commits ← collectCommitsSince lastTag
    let date ← getToday
    let nextContent := changelogSection version date commits ++ existing
    if opts.dryRun then do
      logI (.wouldUpdateChangelog version)
      pure false
    else do
      writeChangelog nextContent
      pure true

def commitChangelog (version : String) (opts : Opts) : M Unit := do
  let _ ← runGit (.add "CHANGELOG.md") { dryRun := opts.dryRun }
  let _ ← runGit (.commit ("docs: update changelog for v" ++ version)) { dryRun := opts.dryRun }
  pure ()

/-! ### File-reading version helpers (`scripts/lib/version.js` and the
`operations/` modules) -/

/-- `content.trim().split("\n")[0].trim()` -/
def firstLineTrim (content : String) : String :=
  jsTrim (String.mk ((splitCh '\n' (jsTrim content).data).headI))

def readVersion : M String := do
  let file ← getVersionTxt
  match file with
  | none => fatal .versionFileMissing
  | some content =>
    let version := firstLineTrim content
    if validateVersion version then pure version
    else fatal (.invalidVersionInFile version)

/-- `updateVersionFile` (`operations/release.js` / `operations/hotfix.js`):
replace the first line of `version.txt`, skipping the write in dry-run. -/
def updateVersionFile (version : String) (opts : Opts) : M Bool := do
  let file ← getVersionTxt
  match file with
  | none => fatal .versionFileMissing
  | some content =>
    let lines := (splitCh '\n' content.data).map String.mk
    let nextContent := joinLines (version :: lines.tail)
    if opts.dryRun then do
      logI (.wouldWriteVersion version)
      pure false
    else do
      writeVersionTxt nextContent
      pure true

/-- `commitChanges` (`operations/release.js` / `operations/hotfix.js`):
stage `version.txt` (and `CHANGELOG.md` when present) and commit. -/
def commitChanges (version ty : String) (opts : Opts) : M Unit := do
  let msg := "chore: bump version to " ++ version ++ " for " ++ ty
  let hasCl ← changelogFileExists
  let _ ← runGit (.add ("version.txt" ++ (if hasCl then " CHANGELOG.md" else ""))) { dryRun := opts.dryRun }
  let _ ← runGit (.commit msg) { dryRun := opts.dryRun }
  pure ()

/-- `promptVersion` (`operations/release.js` / `operations/hotfix.js`). -/
def promptVersion (currentVersion : String) (opts : Opts) : M String := do
  if truthy opts.version then
    let v := jsOr opts.version ""
    if validateVersion v then pure v else fatal .versionMustBeSemver
  else do
    let bumped := incrementVersion currentVersion opts.bump
    if opts.yes then pure bumped
    else do
      let answer ← promptText ("Use version " ++ bumped ++ "? [Y/n] ")
      if answer = "" || jsStartsWith answer.toLower "y" then pure bumped
      else do
        let custom ← promptText "Enter custom version (x.y.z): "
        if validateVersion custom then pure custom
        else fatal .invalidVersionFormat

/-- The `name ? (name.startsWith('v') ? name : `v${name}`) : <fallback>`
expression shared by the release/hotfix handlers. -/
def refNameOf (name : Option String) (fallback : String) : String :=
  if truthy name then
    (let n := jsOr name ""; if jsStartsWith n "v" then n else "v" ++ n)
  else fallback

/-! ### Release orchestrator (`scripts/operations/release.js`) -/

def handleReleaseStart (opts : Opts) : M Unit := do
  ensureCleanTree
  ensureBranchExists "develop"
  let currentVersion ← readVersion
  let newVersion ← promptVersion currentVersion { opts with bump := some (jsOr opts.bump "minor") }
  let _ ← (if !validateVersion newVersion then fatalU .invalidVersionFormat else pure ())
  let _ ← (if compareVersions newVersion currentVersion < 0 then
    fatalU (.versionRegression newVersion currentVersion)
  else pure ())
  let releaseName := refNameOf opts.name ("v" ++ newVersion)
  let branchName := "release/" ++ releaseName
  ensureBranchMissing branchName
  let baseBranch := jsOr opts.base "develop"
  let _ ← (if !opts.offline then pullBranch baseBranch opts.dryRun opts.offline else pure ())
  logI (.note ("Starting release branch: " ++ branchName))
  let _ ← runGitFlow (.flowStart "release" releaseName baseBranch) { dryRun := opts.dryRun }
  logS (.note ("Release branch started: " ++ branchName))
  let versionChanged ← updateVersionFile newVersion opts
  let changelogChanged ← if !opts.noChangelog then appendChangelog newVersion opts else pure false
  commitChanges newVersion "release" opts
  let _ ← (if opts.push then do
    let _ ← runGit (.pushUpstream branchName) { dryRun := opts.dryRun }
    logS (.note ("Pushed " ++ branchName))
  else pure ())
  logS (.note ("Release initialized: " ++ branchName ++ " (version " ++ newVersion ++ ")"))
  if opts.dryRun then logW .dryRunCompleted
  else if !versionChanged && !changelogChanged then logW .noFilesChanged
  else pure ()

def handleReleaseFinish (opts : Opts) : M Unit := do
  ensureCleanTree
  ensureBranchExists "main"
  ensureBranchExists "develop"
  let _ ← (if !truthy opts.tag || !truthy opts.message then fatalU (.tagMsgRequired "release") else pure ())
  let tag := jsOr opts.tag ""
  ensureTagMissing (stripLeadingV tag)
  let releaseName := refNameOf opts.name tag
  let branchName := "release/" ++ releaseName
  ensureBranchExists branchName
  let _ ← (if !opts.offline then do
    pullBranch branchName opts.dryRun opts.offline
    pullBranch "develop" opts.dryRun opts.offline
    pullBranch "main" opts.dryRun opts.offline
  else pure ())
  let _ ← (if !opts.noChangelog then do
    let version := stripLeadingV tag
    let existing ← getChangelog
    if !strIncludes existing ("## v" ++ version) then do
      let _ ← appendChangelog version opts
      commitChangelog version opts
    else pure ()
  else pure ())
  let p := opts.push && !opts.offline
  logI (.note ("Finishing release branch: " ++ branchName))
  let _ ← runGitFlow (.flowFinish "release" p false opts.tag opts.message releaseName) { dryRun := opts.dryRun }
  logS (.note ("Release branch finalized: " ++ branchName))
  let _ ← (if opts.push && opts.offline then logW .pushIgnoredOffline else pure ())
  let _ ← (if !opts.keepBranch && !opts.dryRun then do
    let _ ← runGit (.branchDeleteForce branchName) { allowFail := true }
    pure ()
  else pure ())
  logS (.note ("Release completed: " ++ tag))

def handleRelease (action : Option String) (opts : Opts) : M Unit := do
  let available ← ensureGitFlowAvailable false opts.offline opts.dryRun
  let _ ← (if !available then fatalU (.flowRequired "release operations") else pure ())
  ensureGitFlowInitialized
  if opts.help then showLine "printHelp release"
  else if action = some "start" then handleReleaseStart opts
  else if action = some "finish" then handleReleaseFinish opts
  else do
    logE (.note ("Unknown release action: " ++ jsOr action "null"))
    showLine "printHelp release"
    exit1

/-! ### Hotfix orchestrator (`scripts/operations/hotfix.js`; identical to
the release one except for the base branch, the default bump kind and the
branch name prefix) -/

def handleHotfixStart (opts : Opts) : M Unit := do
  ensureCleanTree
  ensureBranchExists "main"
  let currentVersion ← readVersion
  let newVersion ← promptVersion currentVersion { opts with bump := some (jsOr opts.bump "patch") }
  let _ ← (if !validateVersion newVersion then fatalU .invalidVersionFormat else pure ())
  let _ ← (if compareVersions newVersion currentVersion < 0 then
    fatalU (.versionRegression newVersion currentVersion)
  else pure ())
  let hotfixName := refNameOf opts.name ("v" ++ newVersion)
  let branchName := "hotfix/" ++ hotfixName
  ensureBranchMissing branchName
  let baseBranch := jsOr opts.base "main"
  let _ ← (if !opts.offline then pullBranch baseBranch opts.dryRun opts.offline else pure ())
  logI (.note ("Starting hotfix branch: " ++ branchName))
  let _ ← runGitFlow (.flowStart "hotfix" hotfixName baseBranch) { dryRun := opts.dryRun }
  logS (.note ("Hotfix branch started: " ++ branchName))
  let versionChanged ← updateVersionFile newVersion opts
  let changelogChanged ← if !opts.noChangelog then appendChangelog newVersion opts else pure false
  commitChanges newVersion "hotfix" opts
  let _ ← (if opts.push then do
    let _ ← runGit (.pushUpstream branchName) { dryRun := opts.dryRun }
    logS (.note ("Pushed " ++ branchName))
  else pure ())
  logS (.note ("Hotfix initialized: " ++ branchName ++ " (version " ++ newVersion ++ ")"))
  if opts.dryRun then logW .dryRunCompleted
  else if !versionChanged && !changelogChanged then logW .noFilesChanged
  else pure ()

def handleHotfixFinish (opts : Opts) : M Unit := do
  ensureCleanTree
  ensureBranchExists "main"
  ensureBranchExists "develop"
  let _ ← (if !truthy opts.tag || !truthy opts.message then fatalU (.tagMsgRequired "hotfix") else pure ())
  let tag := jsOr opts.tag ""
  ensureTagMissing (stripLeadingV tag)
  let hotfixName := refNameOf opts.name tag
  let branchName := "hotfix/" ++ hotfixName
  ensureBranchExists branchName
  let _ ← (if !opts.offline then do
    pullBranch branchName opts.dryRun opts.offline
    pullBranch "develop" opts.dryRun opts.offline
    pullBranch "main" opts.dryRun opts.offline
  else pure ())
  let _ ← (if !opts.noChangelog then do
    let version := stripLeadingV tag
    let existing ← getChangelog
    if !strIncludes existing ("## v" ++ version) then do
      let _ ← appendChangelog version opts
      commitChangelog version opts
    else pure ()
  else pure ())
  let p := opts.push && !opts.offline
  logI (.note ("Finishing hotfix branch: " ++ branchName))
  let _ ← runGitFlow (.flowFinish "hotfix" p false opts.tag opts.message hotfixName) { dryRun := opts.dryRun }
  logS (.note ("Hotfix branch finalized: " ++ branchName))
  let _ ← (if opts.push && opts.offline then logW .pushIgnoredOffline else pure ())
  let _ ← (if !opts.keepBranch && !opts.dryRun then do
    let _ ← runGit (.branchDeleteForce branchName) { allowFail := true }
    pure ()
  else pure ())
  logS (.note ("Hotfix completed: " ++ tag))

def handleHotfix (action : Option String) (opts : Opts) : M Unit := do
  let available ← ensureGitFlowAvailable false opts.offline opts.dryRun
  let _ ← (if !available then fatalU (.flowRequired "hotfix operations") else pure ())
  ensureGitFlowInitialized
  if opts.help then showLine "printHelp hotfix"
  else if action = some "start" then handleHotfixStart opts
  else if action = some "finish" then handleHotfixFinish opts
  else do
    logE (.note ("Unknown hotfix action: " ++ jsOr action "null"))
    showLine "printHelp hotfix"
    exit1

/-! ### The generic lifecycle commands (`scripts/commands/finish.js`,
`scripts/commands/start.js`) -/

def handleFinish (opts : Opts) : M Unit := do
  let available ← ensureGitFlowAvailable false opts.offline opts.dryRun
  let _ ← (if !available then fatalU (.flowRequired "to finish branches") else pure ())
  ensureGitFlowInitialized
  if opts.help then showLine "printHelp finish"
  else do
    ensureCleanTree
    let _ ← (if !truthy opts.ty || !truthy opts.name then fatalU .typeNameRequired else pure ())
    let ty := jsOr opts.ty ""
    let name := jsOr opts.name ""
    let branchName := ty ++ "/" ++ name
    ensureBranchExists branchName
    let _ ← (if (ty = "release" || ty = "hotfix") && (!truthy opts.tag || !truthy opts.message) then
      fatalU (.tagMsgRequired "release/hotfix")
    else pure ())
    let _ ← (if truthy opts.tag then ensureTagMissing (stripLeadingV (jsOr opts.tag "")) else pure ())
    let _ ← (if !opts.offline then do
      logI (.note "Pulling latest changes...")
      pullBranch branchName opts.dryRun opts.offline
      let base := if ty = "hotfix" || ty = "support" then "main" else "develop"
      ensureBranchExists base
      pullBranch base opts.dryRun opts.offline
    else pure ())
    let p := opts.push && !opts.offline
    logI (.note ("Finishing " ++ ty ++ " branch: " ++ branchName))
    let _ ← runGitFlow (.flowFinish ty p opts.squash opts.tag opts.message name) { dryRun := opts.dryRun }
    logS (.note (ty ++ " branch finalized: " ++ branchName))
    let _ ← (if opts.push && opts.offline then logW .pushIgnoredOffline else pure ())
    let _ ← (if !opts.keepBranch && !opts.dryRun then do
      logI (.note ("Deleting branch: " ++ branchName))
      let _ ← runGit (.branchDeleteForce branchName) { allowFail := true }
      pure ()
    else if opts.keepBranch then logI (.note ("Keeping branch: " ++ branchName))
    else pure ())
    if truthy opts.tag then logS (.note ("Created tag: " ++ jsOr opts.tag "")) else pure ()

def handleStart (opts : Opts) : M Unit := do
  let available ← ensureGitFlowAvailable false opts.offline opts.dryRun
  let _ ← (if !available then fatalU (.flowRequired "to start branches") else pure ())
  ensureGitFlowInitialized
  if opts.help then showLine "printHelp start"
  else do
    ensureCleanTree
    let _ ← (if !truthy opts.ty || !truthy opts.name then fatalU .typeNameRequired else pure ())
    let ty := jsOr opts.ty ""
    let name := jsOr opts.name ""
    let ok ← validateBranchName name ty
    let _ ← (if !ok then exit1 else pure ())
    let _ ← runGitFlow .flowConfig { allowFail := true }
    let baseBranch := jsOr opts.base (if ty = "hotfix" || ty = "support" then "main" else "develop")
    ensureBranchExists baseBranch
    let _ ← (if opts.fetch && !opts.offline then do
      logI (.note ("Fetching " ++ baseBranch ++ "..."))
      pullBranch baseBranch opts.dryRun opts.offline
    else pure ())
    let branchName := ty ++ "/" ++ name
    let _ ← (if opts.force then do
      logW (.forceModeWarn branchName)
      let _ ← runGit (.branchDeleteForce branchName) { allowFail := true, dryRun := opts.dryRun }
      pure ()
    else ensureBranchMissing branchName)
    logI (.note ("Starting " ++ ty ++ " branch: " ++ branchName))
    let _ ← runGitFlow (.flowStart ty name (jsOr opts.base "")) { dryRun := opts.dryRun }
    logS (.note (ty ++ " branch started: " ++ branchName))
    if !opts.dryRun then logI (.note ("Switched to branch: " ++ branchName)) else pure ()

/-! ### The finalizer (`scripts/release-finalize.js`) -/

def listBranches (glob : String) : M (List String) := do
  let out ← runGit (.branchList glob) { allowFail := true }
  match out with
  | none => pure []
  | some s =>
    if s = "" then pure []
    else
      pure ((((splitCh '\n' s.data).map String.mk).map
        (fun b => jsTrim (String.mk (removeFirstStar b.data)))).filter (· ≠ ""))

/-- The numbered menu `candidates.forEach((b, idx) => ...)` prints. -/
def menuLines (candidates : List String) : List String :=
  candidates.enum.map (fun p => "  " ++ toString (p.1 + 1) ++ ". " ++ p.2)

def detectBranch (opts : Opts) : M String := do
  if truthy opts.branch then pure (jsOr opts.branch "")
  else do
    let releases ← listBranches "release/*"
    let hotfixes ← listBranches "hotfix/*"
    let candidates :=
      (if !truthy opts.ty || opts.ty = some "release" then releases else []) ++
        (if !truthy opts.ty || opts.ty = some "hotfix" then hotfixes else [])
    if candidates.isEmpty then fatal .noBranchesFound
    else if candidates.length = 1 then pure candidates.headI
    else do
      let isCI ← getCI
      if opts.yes || isCI then fatal .multipleBranches
      else do
        showLine "\nSelect branch to finalize:"
        showLines (menuLines candidates)
        let answer ← promptTextSync "Enter choice: "
        match jsNumber answer with
        | none => fatal .invalidSelection
        | some n =>
          if (n : Int) - 1 < 0 || (n : Int) - 1 ≥ candidates.length then
            fatal .invalidSelection
          else pure (candidates.getD (n - 1) "")

def branchType (branch : String) : String :=
  if jsStartsWith branch "release/" then "release"
  else if jsStartsWith branch "hotfix/" then "hotfix"
  else "unknown"

def ensureBranchMatchesType (branch : String) (requested : Option String) : M String := do
  let detected := branchType branch
  if truthy requested && jsOr requested "" ≠ detected then
    fatal (.typeMismatch branch (jsOr requested ""))
  else if detected = "unknown" then fatal .mustBeReleaseOrHotfix
  else pure detected

/-- The regex `/v(\d+\.\d+\.\d+)$/` used to pull a version out of a branch
name: a literal `v` followed by three maximal digit runs separated by dots,
anchored at the end of the string (matched here by parsing backwards). -/
def versionSuffixMatch (s : String) : Option String :=
  let r := s.data.reverse
  let d3 := r.takeWhile Char.isDigit
  let r1 := r.dropWhile Char.isDigit
  match d3, r1 with
  | [], _ => none
  | _, '.' :: r2 =>
    let d2 := r2.takeWhile Char.isDigit
    let r3 := r2.dropWhile Char.isDigit
    match d2, r3 with
    | [], _ => none
    | _, '.' :: r4 =>
      let d1 := r4.takeWhile Char.isDigit
      let r5 := r4.dropWhile Char.isDigit
      match d1, r5 with
      | [], _ => none
      | _, 'v' :: _ =>
        some (String.mk (d1.reverse ++ ('.' :: (d2.reverse ++ ('.' :: d3.reverse)))))
      | _, _ => none
    | _, _ => none
  | _, _ => none

/-- `main()` of `scripts/release-finalize.js`, taking the parsed options
and folding in the `CI` adjustment `parseArgs` applies to `yes`. -/
def mainFinalize (opts0 : Opts) : M Unit := do
  let isCI ← getCI
  let opts := if isCI then { opts0 with yes := true } else opts0
  if opts.help then do
    showLine "printHelp finalize"
    (fun e => .exit 0 e)
  else do
    ensureCleanTree
    ensureBranchExists "main"
    ensureBranchExists "develop"
    let targetBranch ← detectBranch opts
    let detectedType ← ensureBranchMatchesType targetBranch opts.ty
    match versionSuffixMatch targetBranch with
    | none => fatal .mustIncludeVersion
    | some version => do
      let opts' := { opts with
        name := some version
        tag := some ("v" ++ version)
        message := some ("Release version " ++ version) }
      let _ ← (if detectedType = "hotfix" then handleHotfix (some "finish") opts'
      else handleRelease (some "finish") opts')
      logS (.note "Release/hotfix finalized.")
      showLine ("Version: " ++ version)
      showLine ("Branch: " ++ targetBranch)
      if opts.json then
        showLine ("JSON summary: ok " ++ targetBranch ++ " " ++ version)
      else pure ()

/-! ### The alternate finalizer (`src/unnamed/part_008`)

That script reads the version from `version.txt` (`readVersion`), and only
*warns* when the branch suffix disagrees (`requireBranchVersion`); its
`createTag` then tags with the `version.txt` version. -/

/-- `requireBranchVersion(branch, fileVersion)` from `part_008`. -/
def fin8RequireBranchVersion (branch fileVersion : String) : M Unit := do
  match versionSuffixMatch branch with
  | none => pure ()
  | some branchVersion =>
    if branchVersion ≠ fileVersion then
      logW (.branchVersionDiffers branchVersion fileVersion)
    else pure ()

/-- `createTag(version, opts)` from `part_008`; in its `main`, `version` is
the one read from `version.txt`. -/
def fin8CreateTag (version : String) (opts : Opts) : M Unit := do
  let tagName := "v" ++ version
  let message := "Release version " ++ version
  let _ ← runGit (.tagAnnotate tagName message) { dryRun := opts.dryRun }
  logS (.note ("Created tag " ++ tagName))

/-! ### Read-only runs

`EffRO e e'` says the effect state evolved without touching the repository:
the snapshot is unchanged and only non-mutating subprocess commands were
appended to the executed trace.  `RO m` says a computation only performs
such steps, on every input.
-/

def EffRO (e e' : Eff) : Prop :=
  e'.repo = e.repo ∧
    ∃ l, e'.executed = e.executed ++ l ∧ ∀ c ∈ l, mutating c = false

theorem EffRO.refl (e : Eff) : EffRO e e :=
  ⟨Eq.refl _, [], by simp, by simp⟩

theorem EffRO.trans {a b c : Eff} (h₁ : EffRO a b) (h₂ : EffRO b c) : EffRO a c := by
  obtain ⟨hr₁, l₁, he₁, hm₁⟩ := h₁
  obtain ⟨hr₂, l₂, he₂, hm₂⟩ := h₂
  refine ⟨hr₂.trans hr₁, l₁ ++ l₂, by rw [he₂, he₁, List.append_assoc], ?_⟩
  intro x hx
  rcases List.mem_append.mp hx with h | h
  · exact hm₁ x h
  · exact hm₂ x h

/-- `e'` differs from `e` only outside the repository and the trace. -/
theorem EffRO.of_same (e e' : Eff) (hr : e'.repo = e.repo)
    (he : e'.executed = e.executed) : EffRO e e' :=
  ⟨hr, [], by simp [he], by simp⟩

def RO {α : Type} (m : M α) : Prop := ∀ e, EffRO e ((m e).eff)

theorem RO.bind {α β : Type} {m : M α} {f : α → M β}
    (hm : RO m) (hf : ∀ a, RO (f a)) : RO (m >>= f) := by
  intro e
  have h1 := hm e
  rw [bind_apply]
  cases h : m e with
  | ok a e' =>
    rw [h] at h1
    exact EffRO.trans h1 (hf a e')
  | exit c e' =>
    rw [h] at h1
    exact h1

section LeafRO

attribute [local irreducible] jsTrim firstLineTrim

theorem RO.pure {α : Type} (a : α) : RO (pure a : M α) := fun e => EffRO.refl e

theorem RO.fatal {α : Type} (m : Msg) : RO (fatal m : M α) :=
  fun e => EffRO.of_same e _ rfl rfl

theorem RO.fatalU (m : Msg) : RO (fatalU m) := RO.fatal m

theorem RO.exit1 {α : Type} : RO (exit1 : M α) := fun e => EffRO.refl e

theorem RO.logI (m : Msg) : RO (logI m) := fun e => EffRO.of_same e _ rfl rfl

theorem RO.logW (m : Msg) : RO (logW m) := fun e => EffRO.of_same e _ rfl rfl

theorem RO.logE (m : Msg) : RO (logE m) := fun e => EffRO.of_same e _ rfl rfl

theorem RO.logS (m : Msg) : RO (logS m) := fun e => EffRO.of_same e _ rfl rfl

theorem RO.showLine (s : String) : RO (showLine s) := fun e => EffRO.of_same e _ rfl rfl

theorem RO.getCI : RO getCI := fun e => EffRO.refl e

theorem RO.getToday : RO getToday := fun e => EffRO.refl e

theorem RO.getChangelog : RO getChangelog := fun e => EffRO.refl e

theorem RO.changelogFileExists : RO changelogFileExists := fun e => EffRO.refl e

theorem RO.getVersionTxt : RO getVersionTxt := fun e => EffRO.refl e

theorem RO.promptText (q : String) : RO (GitFlowSpec.promptText q) := by
  intro e
  unfold GitFlowSpec.promptText
  cases e.stdin <;> exact EffRO.of_same _ _ rfl rfl

theorem RO.runGit_of_not_mutating (c : GCmd) (o : RunOpts) (h : mutating c = false) :
    RO (runGit c o) := by
  intro e
  unfold runGit
  split
  · exact EffRO.of_same _ _ rfl rfl
  · have hrepo : (execCmd c e.repo).2 = e.repo := execCmd_repo_of_not_mutating c e.repo h
    split
    · exact ⟨hrepo, [c], rfl, by simpa using h⟩
    · split
      · exact ⟨hrepo, [c], rfl, by simpa using h⟩
      · exact ⟨hrepo, [c], rfl, by simpa using h⟩

theorem RO.runGit_dry (c : GCmd) (o : RunOpts) (h : o.dryRun = true) :
    RO (runGit c o) := by
  intro e
  unfold runGit
  rw [if_pos h]
  exact EffRO.of_same _ _ rfl rfl

theorem RO.ensureCleanTree : RO ensureCleanTree := by
  unfold GitFlowSpec.ensureCleanTree
  repeat'
    first
      | exact RO.runGit_of_not_mutating _ _ rfl
      | refine RO.bind ?_ (fun a => ?_)
      | split
      | exact RO.pure _
      | exact RO.fatal _

theorem RO.ensureBranchExists (name : String) : RO (ensureBranchExists name) := by
  unfold GitFlowSpec.ensureBranchExists
  repeat'
    first
      | exact RO.runGit_of_not_mutating _ _ rfl
      | refine RO.bind ?_ (fun a => ?_)
      | split
      | exact RO.pure _
      | exact RO.fatal _

theorem RO.ensureBranchMissing (name : String) : RO (ensureBranchMissing name) := by
  unfold GitFlowSpec.ensureBranchMissing
  repeat'
    first
      | exact RO.runGit_of_not_mutating _ _ rfl
      | refine RO.bind ?_ (fun a => ?_)
      | split
      | exact RO.pure _
      | exact RO.fatal _

theorem RO.ensureTagMissing (v : String) : RO (ensureTagMissing v) := by
  unfold GitFlowSpec.ensureTagMissing
  repeat'
    first
      | exact RO.runGit_of_not_mutating _ _ rfl
      | refine RO.bind ?_ (fun a => ?_)
      | split
      | dsimp only
      | exact RO.pure _
      | exact RO.fatal _

theorem RO.ensureGitFlowInitialized : RO ensureGitFlowInitialized := by
  unfold GitFlowSpec.ensureGitFlowInitialized
  repeat'
    first
      | exact RO.runGit_of_not_mutating _ _ rfl
      | refine RO.bind ?_ (fun a => ?_)
      | split
      | exact RO.pure _
      | exact RO.fatal _

theorem RO.ensureGitFlowAvailable (off dry : Bool) :
    RO (ensureGitFlowAvailable false off dry) := by
  unfold GitFlowSpec.ensureGitFlowAvailable
  repeat'
    first
      | exact RO.runGit_of_not_mutating _ _ rfl
      | refine RO.bind ?_ (fun a => ?_)
      | split
      | exact RO.pure _
      | exact RO.fatal _
      | exact RO.logW _
      | exact RO.logI _
      | exact RO.logS _

theorem RO.pullBranch_dry (b : String) (off : Bool) : RO (pullBranch b true off) := by
  unfold GitFlowSpec.pullBranch GitFlowSpec.checkout
  repeat'
    first
      | exact RO.runGit_dry _ _ rfl
      | refine RO.bind ?_ (fun a => ?_)
      | split
      | exact RO.pure _

theorem RO.validateBranchName (name ty : String) : RO (validateBranchName name ty) := by
  unfold GitFlowSpec.validateBranchName
  repeat'
    first
      | refine RO.bind ?_ (fun a => ?_)
      | split
      | exact RO.pure _
      | exact RO.logE _

theorem RO.getLastTag : RO getLastTag := by
  unfold GitFlowSpec.getLastTag
  repeat'
    first
      | exact RO.runGit_of_not_mutating _ _ rfl
      | refine RO.bind ?_ (fun a => ?_)
      | split
      | exact RO.pure _

theorem RO.collectCommitsSince (ref : Option String) : RO (collectCommitsSince ref) := by
  unfold GitFlowSpec.collectCommitsSince
  repeat'
    first
      | exact RO.runGit_of_not_mutating _ _ rfl
      | refine RO.bind ?_ (fun a => ?_)
      | split
      | dsimp only
      | exact RO.pure _

theorem RO.readVersion : RO readVersion := by
  unfold GitFlowSpec.readVersion
  repeat'
    first
      | exact RO.getVersionTxt
      | refine RO.bind ?_ (fun a => ?_)
      | split
      | dsimp only
      | exact RO.pure _
      | exact RO.fatal _

theorem RO.promptVersion (cv : String) (opts : Opts) : RO (promptVersion cv opts) := by
  unfold GitFlowSpec.promptVersion
  repeat'
    first
      | exact RO.promptText _
      | refine RO.bind ?_ (fun a => ?_)
      | split
      | dsimp only
      | exact RO.pure _
      | exact RO.fatal _

theorem RO.updateVersionFile (v : String) (opts : Opts) (h : opts.dryRun = true) :
    RO (updateVersionFile v opts) := by
  unfold GitFlowSpec.updateVersionFile
  rw [h]
  repeat'
    first
      | exact RO.getVersionTxt
      | refine RO.bind ?_ (fun a => ?_)
      | split
      | dsimp only
      | exact RO.pure _
      | exact RO.fatal _
      | exact RO.logI _
      | simp_all

theorem RO.appendChangelog (v : String) (opts : Opts) (h : opts.dryRun = true) :
    RO (appendChangelog v opts) := by
  unfold GitFlowSpec.appendChangelog
  rw [h]
  repeat'
    first
      | exact RO.getChangelog
      | exact RO.getToday
      | exact RO.getLastTag
      | exact RO.collectCommitsSince _
      | refine RO.bind ?_ (fun a => ?_)
      | split
      | dsimp only
      | exact RO.pure _
      | exact RO.logI _
      | simp_all

theorem RO.commitChangelog (v : String) (opts : Opts) (h : opts.dryRun = true) :
    RO (commitChangelog v opts) := by
  unfold GitFlowSpec.commitChangelog
  rw [h]
  repeat'
    first
      | exact RO.runGit_dry _ _ rfl
      | refine RO.bind ?_ (fun a => ?_)
      | exact RO.pure _

theorem RO.commitChanges (v ty : String) (opts : Opts) (h : opts.dryRun = true) :
    RO (commitChanges v ty opts) := by
  unfold GitFlowSpec.commitChanges
  rw [h]
  repeat'
    first
      | exact RO.changelogFileExists
      | exact RO.runGit_dry _ _ rfl
      | refine RO.bind ?_ (fun a => ?_)
      | split
      | dsimp only
      | exact RO.pure _

/-! RO lemmas for the command handlers.  The helper definitions are made
locally irreducible so that proof search composes their `RO` lemmas instead
of descending into their bodies. -/

end LeafRO

section HandlerRO

attribute [local irreducible] jsTrim firstLineTrim

attribute [local irreducible] ensureCleanTree ensureBranchExists ensureBranchMissing
  ensureTagMissing ensureGitFlowInitialized ensureGitFlowAvailable pullBranch checkout
  validateBranchName getLastTag collectCommitsSince readVersion promptVersion
  updateVersionFile appendChangelog commitChangelog commitChanges runGit promptText
  logI logW logE logS fatal fatalU exit1 showLine getCI getToday getChangelog
  changelogFileExists getVersionTxt writeChangelog writeVersionTxt

set_option maxHeartbeats 1600000

theorem RO.handleReleaseStart (opts : Opts) (h : opts.dryRun = true) :
    RO (handleReleaseStart opts) := by
  unfold GitFlowSpec.handleReleaseStart
  rw [h]
  repeat'
    first
      | exact RO.ensureCleanTree
      | exact RO.ensureBranchExists _
      | exact RO.ensureBranchMissing _
      | exact RO.readVersion
      | exact RO.promptVersion _ _
      | exact RO.pullBranch_dry _ _
      | exact RO.updateVersionFile _ _ h
      | exact RO.appendChangelog _ _ h
      | exact RO.commitChanges _ _ _ h
      | exact RO.runGit_dry _ _ rfl
      | refine RO.bind ?_ (fun a => ?_)
      | split
      | dsimp only
      | exact RO.pure _
      | exact RO.fatal _
      | exact RO.fatalU _
      | exact RO.logI _
      | exact RO.logW _
      | exact RO.logS _
      | simp_all

theorem RO.handleReleaseFinish (opts : Opts) (h : opts.dryRun = true) :
    RO (handleReleaseFinish opts) := by
  unfold GitFlowSpec.handleReleaseFinish
  rw [h]
  repeat'
    first
      | exact RO.ensureCleanTree
      | exact RO.ensureBranchExists _
      | exact RO.ensureTagMissing _
      | exact RO.getChangelog
      | exact RO.pullBranch_dry _ _
      | exact RO.appendChangelog _ _ h
      | exact RO.commitChangelog _ _ h
      | exact RO.runGit_dry _ _ rfl
      | refine RO.bind ?_ (fun a => ?_)
      | split
      | dsimp only
      | exact RO.pure _
      | exact RO.fatal _
      | exact RO.fatalU _
      | exact RO.logI _
      | exact RO.logW _
      | exact RO.logS _
      | simp_all

theorem RO.handleHotfixStart (opts : Opts) (h : opts.dryRun = true) :
    RO (handleHotfixStart opts) := by
  unfold GitFlowSpec.handleHotfixStart
  rw [h]
  repeat'
    first
      | exact RO.ensureCleanTree
      | exact RO.ensureBranchExists _
      | exact RO.ensureBranchMissing _
      | exact RO.readVersion
      | exact RO.promptVersion _ _
      | exact RO.pullBranch_dry _ _
      | exact RO.updateVersionFile _ _ h
      | exact RO.appendChangelog _ _ h
      | exact RO.commitChanges _ _ _ h
      | exact RO.runGit_dry _ _ rfl
      | refine RO.bind ?_ (fun a => ?_)
      | split
      | dsimp only
      | exact RO.pure _
      | exact RO.fatal _
      | exact RO.fatalU _
      | exact RO.logI _
      | exact RO.logW _
      | exact RO.logS _
      | simp_all

theorem RO.handleHotfixFinish (opts : Opts) (h : opts.dryRun = true) :
    RO (handleHotfixFinish opts) := by
  unfold GitFlowSpec.handleHotfixFinish
  rw [h]
  repeat'
    first
      | exact RO.ensureCleanTree
      | exact RO.ensureBranchExists _
      | exact RO.ensureTagMissing _
      | exact RO.getChangelog
      | exact RO.pullBranch_dry _ _
      | exact RO.appendChangelog _ _ h
      | exact RO.commitChangelog _ _ h
      | exact RO.runGit_dry _ _ rfl
      | refine RO.bind ?_ (fun a => ?_)
      | split
      | dsimp only
      | exact RO.pure _
      | exact RO.fatal _
      | exact RO.fatalU _
      | exact RO.logI _
      | exact RO.logW _
      | exact RO.logS _
      | simp_all

theorem RO.handleFinish (opts : Opts) (h : opts.dryRun = true) :
    RO (handleFinish opts) := by
  unfold GitFlowSpec.handleFinish
  rw [h]
  repeat'
    first
      | exact RO.ensureGitFlowAvailable _ _
      | exact RO.ensureGitFlowInitialized
      | exact RO.ensureCleanTree
      | exact RO.ensureBranchExists _
      | exact RO.ensureTagMissing _
      | exact RO.pullBranch_dry _ _
      | exact RO.runGit_dry _ _ rfl
      | refine RO.bind ?_ (fun a => ?_)
      | split
      | dsimp only
      | exact RO.pure _
      | exact RO.fatal _
      | exact RO.fatalU _
      | exact RO.logI _
      | exact RO.logW _
      | exact RO.logS _
      | exact RO.showLine _
      | simp_all

theorem RO.handleStart (opts : Opts) (h : opts.dryRun = true) :
    RO (handleStart opts) := by
  unfold GitFlowSpec.handleStart
  rw [h]
  repeat'
    first
      | exact RO.ensureGitFlowAvailable _ _
      | exact RO.ensureGitFlowInitialized
      | exact RO.ensureCleanTree
      | exact RO.ensureBranchExists _
      | exact RO.ensureBranchMissing _
      | exact RO.validateBranchName _ _
      | exact RO.pullBranch_dry _ _
      | exact RO.runGit_of_not_mutating _ _ rfl
      | exact RO.runGit_dry _ _ rfl
      | refine RO.bind ?_ (fun a => ?_)
      | split
      | dsimp only
      | exact RO.pure _
      | exact RO.fatal _
      | exact RO.fatalU _
      | exact RO.exit1
      | exact RO.logI _
      | exact RO.logW _
      | exact RO.logS _
      | exact RO.showLine _
      | simp_all

attribute [local irreducible] handleReleaseStart handleReleaseFinish
  handleHotfixStart handleHotfixFinish

theorem RO.handleRelease (action : Option String) (opts : Opts) (h : opts.dryRun = true) :
    RO (handleRelease action opts) := by
  unfold GitFlowSpec.handleRelease
  repeat'
    first
      | exact RO.ensureGitFlowAvailable _ _
      | exact RO.ensureGitFlowInitialized
      | exact RO.handleReleaseStart _ h
      | exact RO.handleReleaseFinish _ h
      | refine RO.bind ?_ (fun a => ?_)
      | split
      | dsimp only
      | exact RO.pure _
      | exact RO.fatalU _
      | exact RO.exit1
      | exact RO.logE _
      | exact RO.showLine _

theorem RO.handleHotfix (action : Option String) (opts : Opts) (h : opts.dryRun = true) :
    RO (handleHotfix action opts) := by
  unfold GitFlowSpec.handleHotfix
  repeat'
    first
      | exact RO.ensureGitFlowAvailable _ _
      | exact RO.ensureGitFlowInitialized
      | exact RO.handleHotfixStart _ h
      | exact RO.handleHotfixFinish _ h
      | refine RO.bind ?_ (fun a => ?_)
      | split
      | dsimp only
      | exact RO.pure _
      | exact RO.fatalU _
      | exact RO.exit1
      | exact RO.logE _
      | exact RO.showLine _

end HandlerRO

/-! ### String and list facts used by the claim theorems -/

theorem isPrefixOf_append_self (l t : List Char) : l.isPrefixOf (l ++ t) = true := by
  simp [List.isPrefixOf_iff_prefix]

theorem hasInfix_append_of_isPrefixOf (p l : List Char) (h : p.isPrefixOf l = true) :
    hasInfix p l = true := hasInfix_of_isPrefixOf p l h

theorem strIncludes_of_isPrefixOf (big pat : String)
    (h : pat.data.isPrefixOf big.data = true) : strIncludes big pat = true :=
  hasInfix_of_isPrefixOf _ _ h

/-- The heading `## v<version>` is a prefix of the section the generator
prepends, so the freshly written file always contains it. -/
theorem strIncludes_changelogSection (v d ex : String) (cs : List String) :
    strIncludes (changelogSection v d cs ++ ex) ("## v" ++ v) = true := by
  apply strIncludes_of_isPrefixOf
  have hd : (changelogSection v d cs ++ ex).data =
      ("## v" ++ v).data ++ ((" - " ++ d ++ "\n" ++
        (if cs.isEmpty then "- Internal changes" else joinLines cs) ++ "\n" ++ ex).data) := by
    simp [changelogSection, String.data_append, List.append_assoc]
  rw [hd]
  exact isPrefixOf_append_self _ _

theorem stripLeadingV_v_append (u : String) : stripLeadingV ("v" ++ u) = u := by
  unfold stripLeadingV
  rw [String.data_append]
  rfl

theorem jsStartsWith_append_self (p rest : String) :
    jsStartsWith (p ++ rest) p = true := by
  unfold jsStartsWith
  rw [String.data_append]
  exact isPrefixOf_append_self _ _

theorem stripLeadingV_of_not_v (u : String) (h : jsStartsWith u "v" = false) :
    stripLeadingV u = u := by
  unfold jsStartsWith at h
  unfold stripLeadingV
  match hu : u.data with
  | [] => rfl
  | c :: t =>
    rw [hu] at h
    split
    · rename_i heq
      injection heq with h1 h2
      rw [h1] at h
      simp [List.isPrefixOf] at h
    · rfl

/-- The tag-name normalization `ensureTagMissing` applies to the
already-`replace(/^v/, "")`-stripped argument the `finish` handlers pass. -/
def tagNormOf (t : String) : String :=
  let s := stripLeadingV t
  if jsStartsWith s "v" then s else "v" ++ s

/-- A git ref as `git branch`/`git tag` can actually print it: non-empty,
no newline, no `*`, and no surrounding whitespace. -/
def cleanName (s : String) : Bool :=
  s ≠ "" && !s.data.contains '\n' && !s.data.contains '*' && jsTrim s == s

theorem string_ne_empty_of_data_ne_nil (s : String) (h : s.data ≠ []) : s ≠ "" := by
  intro hc
  exact h (congrArg String.data hc)

theorem joinLines_ne_empty (l : List String) (hl : l ≠ [])
    (h : ∀ s ∈ l, s ≠ "") : joinLines l ≠ "" := by
  match l with
  | [] => exact absurd rfl hl
  | [s] => exact h s (by simp)
  | s :: b :: rest =>
    have hs : s ≠ "" := h s (by simp)
    apply string_ne_empty_of_data_ne_nil
    show (s ++ "\n" ++ joinLines (b :: rest)).data ≠ []
    rw [String.data_append, String.data_append]
    intro hc
    rw [List.append_assoc] at hc
    rcases List.append_eq_nil.mp hc with ⟨h1, _⟩
    exact hs (congrArg String.mk h1)

theorem splitLines_joinLines (l : List String)
    (h : ∀ s ∈ l, s ≠ "" ∧ '\n' ∉ s.data) (hl : l ≠ []) :
    (splitCh '\n' (joinLines l).data).map String.mk = l := by
  match l with
  | [] => exact absurd rfl hl
  | [s] =>
    have hs := h s (by simp)
    show (splitCh '\n' s.data).map String.mk = [s]
    rw [splitCh_sepFree _ _ hs.2]
    rfl
  | s :: b :: rest =>
    have hs := h s (by simp)
    have ih := splitLines_joinLines (b :: rest) (fun x hx => h x (by simp [hx])) (by simp)
    show (splitCh '\n' ((s ++ "\n" ++ joinLines (b :: rest))).data).map String.mk = _
    rw [String.data_append, String.data_append, List.append_assoc]
    have hnl : ("\n" : String).data ++ (joinLines (b :: rest)).data =
        '\n' :: (joinLines (b :: rest)).data := rfl
    rw [hnl, splitCh_append _ _ _ hs.2]
    simp only [List.map_cons]
    rw [ih]

theorem map_eq_self_of_eq {α : Type} (l : List α) (f : α → α) (h : ∀ s ∈ l, f s = s) :
    l.map f = l := by
  conv_rhs => rw [← List.map_id l]
  exact List.map_congr_left h

theorem removeFirstStar_of_not_mem (l : List Char) (h : '*' ∉ l) :
    removeFirstStar l = l := by
  induction l with
  | nil => rfl
  | cons c t ih =>
    simp only [List.mem_cons, not_or] at h
    have hcs : ¬(c = '*') := fun hc => h.1 (Eq.symm hc)
    simp only [removeFirstStar, if_neg hcs]
    rw [ih h.2]

theorem cleanName_spec (s : String) (h : cleanName s = true) :
    s ≠ "" ∧ '\n' ∉ s.data ∧ '*' ∉ s.data ∧ jsTrim s = s := by
  unfold cleanName at h
  simp only [Bool.and_eq_true, bne_iff_ne, ne_eq, Bool.not_eq_true', beq_iff_eq,
    decide_eq_true_eq] at h
  obtain ⟨⟨⟨h1, h2⟩, h3⟩, h4⟩ := h
  refine ⟨h1, ?_, ?_, h4⟩
  · simpa using h2
  · simpa using h3

/-- `listBranches` under well-formed branch names: the `git branch --list`
output processing collapses to a plain filter of the branch list. -/
theorem listBranches_run (glob : String) (e : Eff)
    (hwf : ∀ s ∈ e.repo.branches, cleanName s = true) :
    listBranches glob e =
      .ok (e.repo.branches.filter (globMatch glob)) (e.exec (.branchList glob)) := by
  have hwff : ∀ s ∈ e.repo.branches.filter (globMatch glob), cleanName s = true :=
    fun s hs => hwf s (List.mem_of_mem_filter hs)
  unfold GitFlowSpec.listBranches
  cases hfilt : e.repo.branches.filter (globMatch glob) with
  | nil =>
    simp [runGit, execCmd, Eff.exec, joinLines, hfilt]
  | cons x xs =>
    have hxin : ∀ s ∈ x :: xs, cleanName s = true := fun s hs => hwff s (hfilt ▸ hs)
    have hne : joinLines (x :: xs) ≠ "" :=
      joinLines_ne_empty _ (by simp) (fun s hs => (cleanName_spec s (hxin s hs)).1)
    have hsplit : (splitCh '\n' (joinLines (x :: xs)).data).map String.mk = x :: xs :=
      splitLines_joinLines _
        (fun s hs => ⟨(cleanName_spec s (hxin s hs)).1, (cleanName_spec s (hxin s hs)).2.1⟩)
        (by simp)
    have hmap : (x :: xs).map (fun b => jsTrim (String.mk (removeFirstStar b.data))) = x :: xs := by
      apply map_eq_self_of_eq
      intro s hs
      obtain ⟨_, _, hstar, htrim⟩ := cleanName_spec s (hxin s hs)
      rw [removeFirstStar_of_not_mem _ hstar]
      exact htrim
    have hcomp : List.map ((fun b => jsTrim (String.mk (removeFirstStar b.data))) ∘ String.mk)
        (splitCh '\n' (joinLines (x :: xs)).data) = x :: xs := by
      rw [← List.map_map, hsplit]
      exact hmap
    have hfl : List.filter (fun x => !decide (x = "")) (x :: xs) = x :: xs := by
      apply List.filter_eq_self.mpr
      intro a ha
      simpa using (cleanName_spec a (hxin a ha)).1
    simp [runGit, execCmd, Eff.exec, hfilt, hne, hcomp, hfl]

/-- The canonical effect state the claim theorems run the handlers in: a
clean working tree and an initialized git-flow setup, with the branch list,
tag list, tracked files, prompt queue and environment arbitrary. -/
def cleanEff (branches tags : List String) (d : Option String) (lg : String)
    (cl vtxt : Option String) (stdin : List String) (today : String) (ci : Bool) : Eff :=
  { repo := { branches := branches
              tags := tags
              statusOut := ""
              gitflowMaster := some "master"
              flowAvailable := true
              describeOut := d
              logOut := lg
              versionTxt := vtxt
              changelog := cl }
    executed := []
    logs := []
    stdin := stdin
    shown := []
    today := today
    ci := ci }

/-! ### Claim theorems -/

/-- C8: the version parser accepts exactly the canonical `x.y.z` strings:
`"1.02.3"` (leading zero) and `"1.2"` (wrong arity) fail validation and
yield no SemVer; every string failing the regex parses to `none`; and the
canonical rendering of any triple of naturals validates and parses back to
exactly those three integer components. -/
theorem claim_C8_parse_canonical_regex :
    validateVersion "1.02.3" = false ∧ parse "1.02.3" = none ∧
    validateVersion "1.2" = false ∧ parse "1.2" = none ∧
    (∀ s, validateVersion s = false → parse s = none) ∧
    (∀ a b c : Nat, validateVersion (semverString a b c) = true ∧
      parse (semverString a b c) = some ⟨some a, some b, some c⟩) := by
  refine ⟨by decide, by decide, by decide, by decide, ?_, ?_⟩
  · intro s h
    simp [parse, h]
  · intro a b c
    refine ⟨validateVersion_semverString a b c, ?_⟩
    simp [parse, validateVersion_semverString, parseVersion_semverString]

theorem claim_C8_parse_canonical_regex_witness :
    (validateVersion "1.2.x" = false ∧ parse "1.2.x" = none) ∧
    (validateVersion (semverString 1 10 0) = true ∧
      parse (semverString 1 10 0) = some ⟨some 1, some 10, some 0⟩) :=
  ⟨⟨by decide, claim_C8_parse_canonical_regex.2.2.2.2.1 "1.2.x" (by decide)⟩,
    claim_C8_parse_canonical_regex.2.2.2.2.2 1 10 0⟩

/-- C10: the changelog already-present check is a plain substring test for
`## v<version>`: with a file containing only a section for `1.2.01`, an
append for `1.2.0` reports it as already present (`applied = false`, no
write, only the skip log line), although the file has no section heading
for `1.2.0` itself. -/
theorem claim_C10_substring_presence_check :
    strIncludes "## v1.2.01 - 2025-06-01\n- change\n" "## v1.2.0" = true ∧
    strIncludes "## v1.2.01 - 2025-06-01\n- change\n" "## v1.2.0 -" = false ∧
    appendChangelog "1.2.0" {}
        (cleanEff [] [] none "" (some "## v1.2.01 - 2025-06-01\n- change\n") none
          [] "2026-01-01" false) =
      .ok false
        ((cleanEff [] [] none "" (some "## v1.2.01 - 2025-06-01\n- change\n") none
          [] "2026-01-01" false).log .info .changelogHasVersion) := by
  refine ⟨by decide, by decide, by decide⟩

/-- The commit lines the generator derives for a snapshot (the processed
`git log` output; the chosen range does not change the oracle output). -/
def commitsOf (r : Repo) : List String :=
  if r.logOut = "" then []
  else ((splitCh '\n' r.logOut.data).map String.mk).filter (· ≠ "")

/-- The `git log` range the generator asks for, `<lastTag>..HEAD` or the
full history when no tag is reachable. -/
def rangeOf (r : Repo) : String :=
  match (if truthy r.describeOut then r.describeOut else none) with
  | some rr => if rr = "" then "HEAD" else rr ++ "..HEAD"
  | none => "HEAD"

/-- The skip path of `appendChangelog`: the version heading is already in
the file, so nothing at all happens except the skip log line. -/
theorem appendChangelog_already (v : String) (opts : Opts) (e : Eff)
    (h : strIncludes (e.repo.changelog.getD "") ("## v" ++ v) = true) :
    appendChangelog v opts e = .ok false (e.log .info .changelogHasVersion) := by
  unfold appendChangelog getChangelog
  simp [h, logI, Eff.info]

/-- The dry-run path of `appendChangelog`: the two read-only history probes
run, the would-be update is logged, nothing is written. -/
theorem appendChangelog_dry (v : String) (opts : Opts) (e : Eff)
    (h : strIncludes (e.repo.changelog.getD "") ("## v" ++ v) = false)
    (hdry : opts.dryRun = true) :
    appendChangelog v opts e = .ok false
      (({ e with executed := e.executed ++ [GCmd.describe, GCmd.logPretty (rangeOf e.repo)] }).log
        .info (.wouldUpdateChangelog v)) := by
  unfold appendChangelog getChangelog getLastTag collectCommitsSince getToday
  cases hdesc : e.repo.describeOut with
  | none =>
    by_cases hlg : e.repo.logOut = "" <;>
      simp [h, hdry, runGit, execCmd, Eff.exec, Eff.log, Eff.info, hdesc, hlg, truthy,
        logI, rangeOf]
  | some dsc =>
    by_cases hdsc : dsc = "" <;> by_cases hlg : e.repo.logOut = "" <;>
      simp [h, hdry, runGit, execCmd, Eff.exec, Eff.log, Eff.info, hdesc, hdsc, hlg, truthy,
        logI, rangeOf]

/-- The write path of `appendChangelog`: the new section is prepended above
the existing content in a single write. -/
theorem appendChangelog_write (v : String) (opts : Opts) (e : Eff)
    (h : strIncludes (e.repo.changelog.getD "") ("## v" ++ v) = false)
    (hdry : opts.dryRun = false) :
    appendChangelog v opts e = .ok true
      { e with
        repo := { e.repo with
          changelog := some (changelogSection v e.today (commitsOf e.repo) ++
            e.repo.changelog.getD "") }
        executed := e.executed ++ [GCmd.describe, GCmd.logPretty (rangeOf e.repo)] } := by
  unfold appendChangelog getChangelog getLastTag collectCommitsSince getToday writeChangelog
  cases hdesc : e.repo.describeOut with
  | none =>
    by_cases hlg : e.repo.logOut = "" <;>
      simp [h, hdry, runGit, execCmd, Eff.exec, Eff.log, Eff.info, hdesc, hlg, truthy,
        logI, rangeOf, commitsOf]
  | some dsc =>
    by_cases hdsc : dsc = "" <;> by_cases hlg : e.repo.logOut = "" <;>
      simp [h, hdry, runGit, execCmd, Eff.exec, Eff.log, Eff.info, hdesc, hdsc, hlg, truthy,
        logI, rangeOf, commitsOf]

/-- C4: changelog append is idempotent per version.  (1) If the file
already contains `## v<v>` the call reports `applied = false` and changes
nothing but the log.  (2) In dry-run mode nothing is written and
`applied = false`.  (3) Otherwise the new section is prepended above the
existing content in one write (newest first), and (4) immediately
re-running the append for the same version reports `applied = false` and
leaves the file byte-for-byte identical. -/
theorem claim_C4_changelog_append_idempotent :
    (∀ (v : String) (opts : Opts) (e : Eff),
      strIncludes (e.repo.changelog.getD "") ("## v" ++ v) = true →
      appendChangelog v opts e = .ok false (e.log .info .changelogHasVersion)) ∧
    (∀ (v : String) (opts : Opts) (e : Eff),
      strIncludes (e.repo.changelog.getD "") ("## v" ++ v) = false →
      opts.dryRun = true →
      ∃ e', appendChangelog v opts e = .ok false e' ∧ e'.repo = e.repo) ∧
    (∀ (v : String) (opts : Opts) (e : Eff),
      strIncludes (e.repo.changelog.getD "") ("## v" ++ v) = false →
      opts.dryRun = false →
      ∃ e', appendChangelog v opts e = .ok true e' ∧
        e'.repo.changelog =
          some (changelogSection v e.today (commitsOf e.repo) ++ e.repo.changelog.getD "") ∧
        e'.repo.versionTxt = e.repo.versionTxt ∧ e'.repo.branches = e.repo.branches ∧
        e'.repo.tags = e.repo.tags ∧ e'.today = e.today ∧
        (∀ opts' : Opts,
          appendChangelog v opts' e' = .ok false (e'.log .info .changelogHasVersion))) := by
  refine ⟨appendChangelog_already, ?_, ?_⟩
  · intro v opts e h hdry
    exact ⟨_, appendChangelog_dry v opts e h hdry, by simp [Eff.log]⟩
  · intro v opts e h hdry
    refine ⟨_, appendChangelog_write v opts e h hdry, by simp, by simp, by simp, by simp,
      by simp, ?_⟩
    intro opts'
    apply appendChangelog_already
    simpa using strIncludes_changelogSection v e.today (e.repo.changelog.getD "") (commitsOf e.repo)

theorem claim_C4_changelog_append_idempotent_witness :
    (appendChangelog "1.9.0" {}
        (cleanEff [] [] none "" (some "## v1.9.0 - 2025-01-01\n- old\n") none [] "2026-01-01" false) =
      .ok false
        ((cleanEff [] [] none "" (some "## v1.9.0 - 2025-01-01\n- old\n") none [] "2026-01-01"
          false).log .info .changelogHasVersion)) ∧
    (∃ e', appendChangelog "1.9.1" { dryRun := true }
        (cleanEff [] [] none "" none none [] "2026-01-01" false) = .ok false e' ∧
      e'.repo = (cleanEff [] [] none "" none none [] "2026-01-01" false).repo) ∧
    (∃ e', appendChangelog "1.9.1" {}
        (cleanEff [] [] none "" none none [] "2026-01-01" false) = .ok true e' ∧
      e'.repo.changelog = some (changelogSection "1.9.1" "2026-01-01"
        (commitsOf (cleanEff [] [] none "" none none [] "2026-01-01" false).repo) ++
        ((cleanEff [] [] none "" none none [] "2026-01-01" false).repo.changelog.getD "")) ∧
      e'.repo.versionTxt = none ∧ e'.repo.branches = [] ∧ e'.repo.tags = [] ∧
      e'.today = "2026-01-01" ∧
      (∀ opts' : Opts,
        appendChangelog "1.9.1" opts' e' = .ok false (e'.log .info .changelogHasVersion))) := by
  refine ⟨?_, ?_, ?_⟩
  · exact claim_C4_changelog_append_idempotent.1 "1.9.0" {} _ (by decide)
  · exact claim_C4_changelog_append_idempotent.2.1 "1.9.1" { dryRun := true } _ (by decide) rfl
  · have h := claim_C4_changelog_append_idempotent.2.2 "1.9.1" {}
      (cleanEff [] [] none "" none none [] "2026-01-01" false) (by decide) rfl
    simpa using h

set_option maxHeartbeats 1600000 in
/-- **C3.** For every release or hotfix start invocation, once the target
version is resolved (here: an explicit, well-formed `--version`), a resolved
version strictly below the current version read from `version.txt` is rejected
with a fatal version-regression error (`process.exit(1)` whose last log line is
the regression error), and the rejection happens before any branch is created
or any file is written: the repository branches, `version.txt` and the
changelog are unchanged and every executed command is non-mutating. -/
theorem claim_C3_version_regression_rejected_before_mutation
    (branches tags : List String) (d : Option String) (lg : String) (cl : Option String)
    (vtxt v : String) (opts : Opts) (stdin : List String) (today : String) (ci : Bool)
    (hver : opts.version = some v) (hvne : v ≠ "") (hvv : validateVersion v = true)
    (hcur : validateVersion (firstLineTrim vtxt) = true)
    (hlt : compareVersions v (firstLineTrim vtxt) < 0) :
    ("develop" ∈ branches →
      ∃ e', handleReleaseStart opts
          (cleanEff branches tags d lg cl (some vtxt) stdin today ci) = .exit 1 e' ∧
        e'.logs.getLast? = some ⟨.error, .versionRegression v (firstLineTrim vtxt)⟩ ∧
        e'.repo.branches = branches ∧ e'.repo.versionTxt = some vtxt ∧
        e'.repo.changelog = cl ∧ e'.executed.all (fun c => !mutating c) = true) ∧
    ("main" ∈ branches →
      ∃ e', handleHotfixStart opts
          (cleanEff branches tags d lg cl (some vtxt) stdin today ci) = .exit 1 e' ∧
        e'.logs.getLast? = some ⟨.error, .versionRegression v (firstLineTrim vtxt)⟩ ∧
        e'.repo.branches = branches ∧ e'.repo.versionTxt = some vtxt ∧
        e'.repo.changelog = cl ∧ e'.executed.all (fun c => !mutating c) = true) := by
  have ht : truthy opts.version = true := by simp [truthy, hver, hvne]
  have hj : jsOr opts.version "" = v := by simp [jsOr, hver, hvne]
  constructor
  · intro hdev
    simp [cleanEff, handleReleaseStart, ensureCleanTree, ensureBranchExists, readVersion,
      promptVersion, getVersionTxt, runGit, runGitFlow, execCmd, Eff.exec, Eff.log, Eff.info,
      bind_apply, pure_apply, fatal, fatalU, logI, logW, logS, logE,
      hdev, ht, hj, hcur, hvv, hlt, Bool.not_true, Bool.not_false,
      if_true, if_false, List.append_nil, List.nil_append]
    simp [mutating]
  · intro hmain
    simp [cleanEff, handleHotfixStart, ensureCleanTree, ensureBranchExists, readVersion,
      promptVersion, getVersionTxt, runGit, runGitFlow, execCmd, Eff.exec, Eff.log, Eff.info,
      bind_apply, pure_apply, fatal, fatalU, logI, logW, logS, logE,
      hmain, ht, hj, hcur, hvv, hlt, Bool.not_true, Bool.not_false,
      if_true, if_false, List.append_nil, List.nil_append]
    simp [mutating]

theorem claim_C3_version_regression_rejected_before_mutation_witness :
    (∃ e', handleReleaseStart { version := some "1.0.0" }
        (cleanEff ["develop", "main"] [] none "" none (some "2.0.0") [] "2026-01-01" false) =
      .exit 1 e' ∧
      e'.logs.getLast? = some ⟨.error, .versionRegression "1.0.0" (firstLineTrim "2.0.0")⟩ ∧
      e'.repo.branches = ["develop", "main"] ∧ e'.repo.versionTxt = some "2.0.0" ∧
      e'.repo.changelog = none ∧ e'.executed.all (fun c => !mutating c) = true) ∧
    (∃ e', handleHotfixStart { version := some "1.0.0" }
        (cleanEff ["develop", "main"] [] none "" none (some "2.0.0") [] "2026-01-01" false) =
      .exit 1 e' ∧
      e'.logs.getLast? = some ⟨.error, .versionRegression "1.0.0" (firstLineTrim "2.0.0")⟩ ∧
      e'.repo.branches = ["develop", "main"] ∧ e'.repo.versionTxt = some "2.0.0" ∧
      e'.repo.changelog = none ∧ e'.executed.all (fun c => !mutating c) = true) := by
  have h := claim_C3_version_regression_rejected_before_mutation
    ["develop", "main"] [] none "" none "2.0.0" "1.0.0" { version := some "1.0.0" }
    [] "2026-01-01" false rfl (by decide) (by decide) (by decide) (by decide)
  exact ⟨h.1 (by decide), h.2 (by decide)⟩

/-- The claimed `^[\w-]+$` invariant fails on the names the orchestrator
derives: with no `--name`, the release orchestrator falls back to
`v<version>`, and `v1.10.0` contains dots, which `^[\w-]+$` rejects; the
`start` command validator therefore refuses that very name. -/
theorem claim_C9_branch_name_invariant_counterexample :
    refNameOf none ("v" ++ "1.10.0") = "v1.10.0" ∧
    matchesWordHyphen "v1.10.0" = false ∧
    validateBranchName "v1.10.0" "release"
        (cleanEff [] [] none "" none none [] "2026-01-01" false) =
      .ok false ((cleanEff [] [] none "" none none [] "2026-01-01" false).log .error
        (.invalidBranchName "v1.10.0" "release")) := by
  refine ⟨rfl, by decide, ?_⟩
  simp [validateBranchName, logE, bind_apply, pure_apply, matchesWordHyphen, wordHyphenChar]

set_option maxHeartbeats 1600000 in
/-- **C9 (amended).** The `^[\w-]+$` invariant holds exactly for the names
the `start` command *accepts*: for the four branch types, `validateBranchName`
returns `true` iff the name matches `^[\w-]+$`, and `handleStart` aborts with
exit code 1 (logging the invalid-branch-name error, touching nothing) on any
name failing it.  It does *not* hold for the names the release/hotfix
orchestrators *produce*: with no `--name` they derive `v<version>`, and
whenever the version contains a dot (every `x.y.z` version does) that derived
name fails `^[\w-]+$`. -/
theorem claim_C9_branch_name_invariant_amended :
    (∀ (name ty : String) (e : Eff),
      (ty = "feature" ∨ ty = "release" ∨ ty = "hotfix" ∨ ty = "support") →
      validateBranchName name ty e =
        (if matchesWordHyphen name then .ok true e
         else .ok false (e.log .error (.invalidBranchName name ty)))) ∧
    (∀ v : String, '.' ∈ v.data →
      refNameOf none ("v" ++ v) = "v" ++ v ∧ matchesWordHyphen ("v" ++ v) = false) ∧
    (∀ (branches tags : List String) (d : Option String) (lg : String)
        (cl vtxt : Option String) (stdin : List String) (today : String) (ci : Bool)
        (opts : Opts) (ty nm : String),
      opts.ty = some ty → ty ≠ "" → opts.name = some nm → nm ≠ "" →
      opts.help = false → opts.dryRun = false →
      (ty = "feature" ∨ ty = "release" ∨ ty = "hotfix" ∨ ty = "support") →
      matchesWordHyphen nm = false →
      ∃ e', handleStart opts (cleanEff branches tags d lg cl vtxt stdin today ci) =
          .exit 1 e' ∧
        e'.logs.getLast? = some ⟨.error, .invalidBranchName nm ty⟩ ∧
        e'.repo.branches = branches ∧ e'.repo.tags = tags ∧
        e'.repo.versionTxt = vtxt ∧ e'.repo.changelog = cl ∧
        e'.executed.all (fun c => !mutating c) = true) := by
  refine ⟨?_, ?_, ?_⟩
  · intro name ty e h4
    rcases h4 with h | h | h | h <;> subst h <;>
      simp [validateBranchName, logE, bind_apply, pure_apply] <;> split <;>
      simp_all [logE, Eff.log, bind_apply, pure_apply]
  · intro v hv
    refine ⟨rfl, ?_⟩
    have hall : (("v" ++ v).data).all wordHyphenChar = false := by
      rw [String.data_append]
      refine List.all_eq_false.mpr ⟨'.', ?_, by decide⟩
      exact List.mem_append.mpr (Or.inr hv)
    unfold matchesWordHyphen
    rw [hall, Bool.and_false]
  · intro branches tags d lg cl vtxt stdin today ci opts ty nm hty htyne hnm hnmne hhelp hdry h4 hmw
    have htt : truthy opts.ty = true := by simp [truthy, hty, htyne]
    have hnt : truthy opts.name = true := by simp [truthy, hnm, hnmne]
    have hjt : jsOr opts.ty "" = ty := by simp [jsOr, hty, htyne]
    have hjn : jsOr opts.name "" = nm := by simp [jsOr, hnm, hnmne]
    have h4b : (ty = "feature" || ty = "release" || ty = "hotfix" || ty = "support") = true := by
      rcases h4 with h | h | h | h <;> simp [h]
    simp [cleanEff, handleStart, ensureGitFlowAvailable, ensureGitFlowInitialized,
      ensureCleanTree, validateBranchName, exit1, runGit, runGitFlow, execCmd,
      Eff.exec, Eff.log, Eff.info, bind_apply, pure_apply, fatal, fatalU,
      logI, logW, logS, logE, showLine, truthy, jsOr,
      hty, htyne, hnm, hnmne, h4b, hmw, hhelp, hdry, Bool.not_true, Bool.not_false,
      if_true, if_false, List.append_nil, List.nil_append]
    simp [mutating]

theorem claim_C9_branch_name_invariant_amended_witness :
    (validateBranchName "fix-1" "release"
        (cleanEff [] [] none "" none none [] "2026-01-01" false) =
      (if matchesWordHyphen "fix-1" then
        .ok true (cleanEff [] [] none "" none none [] "2026-01-01" false)
       else .ok false ((cleanEff [] [] none "" none none [] "2026-01-01" false).log .error
        (.invalidBranchName "fix-1" "release")))) ∧
    (refNameOf none ("v" ++ "1.2.3") = "v" ++ "1.2.3" ∧
      matchesWordHyphen ("v" ++ "1.2.3") = false) ∧
    (∃ e', handleStart { ty := some "release", name := some "v1.2.3" }
        (cleanEff ["develop"] [] none "" none none [] "2026-01-01" false) = .exit 1 e' ∧
      e'.logs.getLast? = some ⟨.error, .invalidBranchName "v1.2.3" "release"⟩ ∧
      e'.repo.branches = ["develop"] ∧ e'.repo.tags = [] ∧
      e'.repo.versionTxt = none ∧ e'.repo.changelog = none ∧
      e'.executed.all (fun c => !mutating c) = true) := by
  refine ⟨?_, ?_, ?_⟩
  · exact claim_C9_branch_name_invariant_amended.1 "fix-1" "release" _ (Or.inr (Or.inl rfl))
  · exact claim_C9_branch_name_invariant_amended.2.1 "1.2.3" (by decide)
  · exact claim_C9_branch_name_invariant_amended.2.2 ["develop"] [] none "" none none []
      "2026-01-01" false { ty := some "release", name := some "v1.2.3" } "release" "v1.2.3"
      rfl (by decide) rfl (by decide) rfl rfl (Or.inr (Or.inl rfl)) (by decide)

set_option maxHeartbeats 1600000 in
/-- **C5.** A `finish` invocation on a release or hotfix branch with `--tag`
or `--message` absent fails with the missing-required-option error
(`process.exit(1)`, last log line the tag/message-required error) and performs
zero repository mutations: the branch list, tag list, `version.txt` and the
changelog are unchanged and every command issued up to the failure is
non-mutating.  This holds both for the generic `finish` command and for the
release orchestrator's `finish` action. -/
theorem claim_C5_missing_tag_message_rejected_without_mutation :
    (∀ (branches tags : List String) (d : Option String) (lg : String)
        (cl vtxt : Option String) (stdin : List String) (today : String) (ci : Bool)
        (opts : Opts) (ty nm : String),
      opts.ty = some ty → (ty = "release" ∨ ty = "hotfix") →
      opts.name = some nm → nm ≠ "" →
      ty ++ "/" ++ nm ∈ branches →
      (truthy opts.tag = false ∨ truthy opts.message = false) →
      opts.help = false → opts.dryRun = false →
      ∃ e', handleFinish opts (cleanEff branches tags d lg cl vtxt stdin today ci) =
          .exit 1 e' ∧
        e'.logs.getLast? = some ⟨.error, .tagMsgRequired "release/hotfix"⟩ ∧
        e'.repo.branches = branches ∧ e'.repo.tags = tags ∧
        e'.repo.versionTxt = vtxt ∧ e'.repo.changelog = cl ∧
        e'.executed.all (fun c => !mutating c) = true) ∧
    (∀ (branches tags : List String) (d : Option String) (lg : String)
        (cl vtxt : Option String) (stdin : List String) (today : String) (ci : Bool)
        (opts : Opts),
      (truthy opts.tag = false ∨ truthy opts.message = false) →
      "main" ∈ branches → "develop" ∈ branches →
      opts.help = false → opts.dryRun = false →
      ∃ e', handleRelease (some "finish") opts
          (cleanEff branches tags d lg cl vtxt stdin today ci) = .exit 1 e' ∧
        e'.logs.getLast? = some ⟨.error, .tagMsgRequired "release"⟩ ∧
        e'.repo.branches = branches ∧ e'.repo.tags = tags ∧
        e'.repo.versionTxt = vtxt ∧ e'.repo.changelog = cl ∧
        e'.executed.all (fun c => !mutating c) = true) := by
  have hcgen : ∀ t m : Option String, truthy t = false ∨ truthy m = false →
      t = none ∨ t = some "" ∨ m = none ∨ m = some "" := by
    intro t m h
    rcases h with h | h
    · cases ht : t with
      | none => exact Or.inl rfl
      | some s =>
        rw [ht] at h
        simp [truthy] at h
        exact Or.inr (Or.inl (by rw [h]))
    · cases hmm : m with
      | none => exact Or.inr (Or.inr (Or.inl rfl))
      | some s =>
        rw [hmm] at h
        simp [truthy] at h
        exact Or.inr (Or.inr (Or.inr (by rw [h])))
  constructor
  · intro branches tags d lg cl vtxt stdin today ci opts ty nm
      hty h2 hnm hnmne hbr hmiss hhelp hdry
    have htyne : ty ≠ "" := by rcases h2 with h | h <;> simp [h]
    have h2b : (ty = "release" || ty = "hotfix") = true := by
      rcases h2 with h | h <;> simp [h]
    have hc := hcgen _ _ hmiss
    rcases h2 with h | h <;> subst h
    · have hbr2 : "release/" ++ nm ∈ branches := by simpa using hbr
      rcases hc with h3 | h3 | h3 | h3 <;>
      simp [cleanEff, handleFinish, ensureGitFlowAvailable, ensureGitFlowInitialized,
        ensureCleanTree, ensureBranchExists, exit1, runGit, runGitFlow, execCmd,
        Eff.exec, Eff.log, Eff.info, bind_apply, pure_apply, fatal, fatalU,
        logI, logW, logS, logE, showLine, truthy, jsOr,
        hty, htyne, hnm, hnmne, hbr2, h3, h2b, hhelp, hdry,
        Bool.not_true, Bool.not_false, if_true, if_false,
        List.append_nil, List.nil_append] <;>
      simp [mutating]
    · have hbr2 : "hotfix/" ++ nm ∈ branches := by simpa using hbr
      rcases hc with h3 | h3 | h3 | h3 <;>
      simp [cleanEff, handleFinish, ensureGitFlowAvailable, ensureGitFlowInitialized,
        ensureCleanTree, ensureBranchExists, exit1, runGit, runGitFlow, execCmd,
        Eff.exec, Eff.log, Eff.info, bind_apply, pure_apply, fatal, fatalU,
        logI, logW, logS, logE, showLine, truthy, jsOr,
        hty, htyne, hnm, hnmne, hbr2, h3, h2b, hhelp, hdry,
        Bool.not_true, Bool.not_false, if_true, if_false,
        List.append_nil, List.nil_append] <;>
      simp [mutating]
  · intro branches tags d lg cl vtxt stdin today ci opts hmiss hmain hdev hhelp hdry
    have hc := hcgen _ _ hmiss
    rcases hc with h3 | h3 | h3 | h3 <;>
    simp [cleanEff, handleRelease, handleReleaseFinish, ensureGitFlowAvailable,
      ensureGitFlowInitialized, ensureCleanTree, ensureBranchExists, exit1,
      runGit, runGitFlow, execCmd, Eff.exec, Eff.log, Eff.info, bind_apply,
      pure_apply, fatal, fatalU, logI, logW, logS, logE, showLine, truthy, jsOr,
      hmain, hdev, h3, hhelp, hdry,
      Bool.not_true, Bool.not_false, if_true, if_false,
      List.append_nil, List.nil_append] <;>
    simp [mutating]

theorem claim_C5_missing_tag_message_rejected_without_mutation_witness :
    (∃ e', handleFinish { ty := some "release", name := some "myrel", message := some "m" }
        (cleanEff ["release/myrel", "main", "develop"] [] none "" none none []
          "2026-01-01" false) = .exit 1 e' ∧
      e'.logs.getLast? = some ⟨.error, .tagMsgRequired "release/hotfix"⟩ ∧
      e'.repo.branches = ["release/myrel", "main", "develop"] ∧ e'.repo.tags = [] ∧
      e'.repo.versionTxt = none ∧ e'.repo.changelog = none ∧
      e'.executed.all (fun c => !mutating c) = true) ∧
    (∃ e', handleRelease (some "finish") { tag := some "v1.0.0" }
        (cleanEff ["main", "develop"] [] none "" none none [] "2026-01-01" false) =
      .exit 1 e' ∧
      e'.logs.getLast? = some ⟨.error, .tagMsgRequired "release"⟩ ∧
      e'.repo.branches = ["main", "develop"] ∧ e'.repo.tags = [] ∧
      e'.repo.versionTxt = none ∧ e'.repo.changelog = none ∧
      e'.executed.all (fun c => !mutating c) = true) := by
  constructor
  · exact claim_C5_missing_tag_message_rejected_without_mutation.1
      ["release/myrel", "main", "develop"] [] none "" none none [] "2026-01-01" false
      { ty := some "release", name := some "myrel", message := some "m" } "release" "myrel"
      rfl (Or.inl rfl) rfl (by decide) (by decide) (Or.inl (by decide)) rfl rfl
  · exact claim_C5_missing_tag_message_rejected_without_mutation.2
      ["main", "develop"] [] none "" none none [] "2026-01-01" false
      { tag := some "v1.0.0" }
      (Or.inr (by decide)) (by decide) (by decide) rfl rfl

set_option maxHeartbeats 1600000 in
/-- **C6.** A `finish` invocation whose tag, after the leading-`v`
normalization (so `1.9.0` and `v1.9.0` denote the same tag `v1.9.0`), is
already present in the repository's tag list fails with the duplicate-tag
error before any merge or finish command is attempted: the run exits with
code 1, the last log line is the tag-exists error, the repository is
untouched and every command issued is non-mutating (in particular no
`git flow finish` and no merge ever runs). -/
theorem claim_C6_duplicate_tag_rejected_before_merge :
    (∀ (branches tags : List String) (d : Option String) (lg : String)
        (cl vtxt : Option String) (stdin : List String) (today : String) (ci : Bool)
        (opts : Opts) (ty nm t msg : String),
      opts.ty = some ty → (ty = "release" ∨ ty = "hotfix") →
      opts.name = some nm → nm ≠ "" →
      ty ++ "/" ++ nm ∈ branches →
      opts.tag = some t → t ≠ "" → opts.message = some msg → msg ≠ "" →
      (∀ s ∈ tags, cleanName s = true) →
      tagNormOf t ∈ tags →
      opts.help = false → opts.dryRun = false →
      ∃ e', handleFinish opts (cleanEff branches tags d lg cl vtxt stdin today ci) =
          .exit 1 e' ∧
        e'.logs.getLast? = some ⟨.error, .tagExistsErr (tagNormOf t)⟩ ∧
        e'.repo.branches = branches ∧ e'.repo.tags = tags ∧
        e'.repo.versionTxt = vtxt ∧ e'.repo.changelog = cl ∧
        e'.executed.all (fun c => !mutating c) = true) ∧
    (∀ u : String, jsStartsWith u "v" = false →
      tagNormOf ("v" ++ u) = "v" ++ u ∧ tagNormOf u = "v" ++ u) := by
  constructor
  · intro branches tags d lg cl vtxt stdin today ci opts ty nm t msg
      hty h2 hnm hnmne hbr htag htne hmsg hmsgne hwf htagmem hhelp hdry
    have htyne : ty ≠ "" := by rcases h2 with h | h <;> simp [h]
    have htsne : tags ≠ [] := List.ne_nil_of_mem htagmem
    have hne : joinLines tags ≠ "" :=
      joinLines_ne_empty _ htsne (fun s hs => (cleanName_spec s (hwf s hs)).1)
    have hsplit : (splitCh '\n' (joinLines tags).data).map String.mk = tags :=
      splitLines_joinLines _
        (fun s hs => ⟨(cleanName_spec s (hwf s hs)).1, (cleanName_spec s (hwf s hs)).2.1⟩)
        htsne
    rcases h2 with h | h <;> subst h
    · have hbr2 : "release/" ++ nm ∈ branches := by simpa using hbr
      cases hsv : jsStartsWith (stripLeadingV t) "v" with
      | true =>
        have hmem2 : stripLeadingV t ∈ tags := by simpa [tagNormOf, hsv] using htagmem
        have hex : ∃ a ∈ splitCh '\n' (joinLines tags).data, String.mk a = stripLeadingV t := by
          rw [← hsplit] at hmem2
          simpa using hmem2
        simp [cleanEff, handleFinish, ensureGitFlowAvailable, ensureGitFlowInitialized,
          ensureCleanTree, ensureBranchExists, ensureTagMissing, exit1, runGit,
          runGitFlow, execCmd, Eff.exec, Eff.log, Eff.info, bind_apply, pure_apply,
          fatal, fatalU, logI, logW, logS, logE, showLine, truthy, jsOr, tagNormOf,
          hty, htyne, hnm, hnmne, hbr2, htag, htne, hmsg, hmsgne, hne, hsplit,
          hmem2, hex, hsv, hhelp, hdry, Bool.not_true, Bool.not_false, if_true, if_false,
          List.append_nil, List.nil_append]
        simp [mutating]
      | false =>
        have hmem2 : "v" ++ stripLeadingV t ∈ tags := by
          simpa [tagNormOf, hsv] using htagmem
        have hex : ∃ a ∈ splitCh '\n' (joinLines tags).data,
            String.mk a = "v" ++ stripLeadingV t := by
          rw [← hsplit] at hmem2
          simpa using hmem2
        simp [cleanEff, handleFinish, ensureGitFlowAvailable, ensureGitFlowInitialized,
          ensureCleanTree, ensureBranchExists, ensureTagMissing, exit1, runGit,
          runGitFlow, execCmd, Eff.exec, Eff.log, Eff.info, bind_apply, pure_apply,
          fatal, fatalU, logI, logW, logS, logE, showLine, truthy, jsOr, tagNormOf,
          hty, htyne, hnm, hnmne, hbr2, htag, htne, hmsg, hmsgne, hne, hsplit,
          hmem2, hex, hsv, hhelp, hdry, Bool.not_true, Bool.not_false, if_true, if_false,
          List.append_nil, List.nil_append]
        simp [mutating]
    · have hbr2 : "hotfix/" ++ nm ∈ branches := by simpa using hbr
      cases hsv : jsStartsWith (stripLeadingV t) "v" with
      | true =>
        have hmem2 : stripLeadingV t ∈ tags := by simpa [tagNormOf, hsv] using htagmem
        have hex : ∃ a ∈ splitCh '\n' (joinLines tags).data, String.mk a = stripLeadingV t := by
          rw [← hsplit] at hmem2
          simpa using hmem2
        simp [cleanEff, handleFinish, ensureGitFlowAvailable, ensureGitFlowInitialized,
          ensureCleanTree, ensureBranchExists, ensureTagMissing, exit1, runGit,
          runGitFlow, execCmd, Eff.exec, Eff.log, Eff.info, bind_apply, pure_apply,
          fatal, fatalU, logI, logW, logS, logE, showLine, truthy, jsOr, tagNormOf,
          hty, htyne, hnm, hnmne, hbr2, htag, htne, hmsg, hmsgne, hne, hsplit,
          hmem2, hex, hsv, hhelp, hdry, Bool.not_true, Bool.not_false, if_true, if_false,
          List.append_nil, List.nil_append]
        simp [mutating]
      | false =>
        have hmem2 : "v" ++ stripLeadingV t ∈ tags := by
          simpa [tagNormOf, hsv] using htagmem
        have hex : ∃ a ∈ splitCh '\n' (joinLines tags).data,
            String.mk a = "v" ++ stripLeadingV t := by
          rw [← hsplit] at hmem2
          simpa using hmem2
        simp [cleanEff, handleFinish, ensureGitFlowAvailable, ensureGitFlowInitialized,
          ensureCleanTree, ensureBranchExists, ensureTagMissing, exit1, runGit,
          runGitFlow, execCmd, Eff.exec, Eff.log, Eff.info, bind_apply, pure_apply,
          fatal, fatalU, logI, logW, logS, logE, showLine, truthy, jsOr, tagNormOf,
          hty, htyne, hnm, hnmne, hbr2, htag, htne, hmsg, hmsgne, hne, hsplit,
          hmem2, hex, hsv, hhelp, hdry, Bool.not_true, Bool.not_false, if_true, if_false,
          List.append_nil, List.nil_append]
        simp [mutating]
  · intro u h
    constructor
    · simp [tagNormOf, stripLeadingV_v_append, h]
    · simp [tagNormOf, stripLeadingV_of_not_v u h, h]

theorem claim_C6_duplicate_tag_rejected_before_merge_witness :
    (∃ e', handleFinish
        { ty := some "release", name := some "myrel", tag := some "v1.9.0",
          message := some "m" }
        (cleanEff ["release/myrel", "main", "develop"] ["v1.9.0"] none "" none none []
          "2026-01-01" false) = .exit 1 e' ∧
      e'.logs.getLast? = some ⟨.error, .tagExistsErr (tagNormOf "v1.9.0")⟩ ∧
      e'.repo.branches = ["release/myrel", "main", "develop"] ∧
      e'.repo.tags = ["v1.9.0"] ∧
      e'.repo.versionTxt = none ∧ e'.repo.changelog = none ∧
      e'.executed.all (fun c => !mutating c) = true) ∧
    (tagNormOf ("v" ++ "1.9.0") = "v" ++ "1.9.0" ∧ tagNormOf "1.9.0" = "v" ++ "1.9.0") := by
  constructor
  · exact claim_C6_duplicate_tag_rejected_before_merge.1
      ["release/myrel", "main", "develop"] ["v1.9.0"] none "" none none [] "2026-01-01" false
      { ty := some "release", name := some "myrel", tag := some "v1.9.0",
        message := some "m" } "release" "myrel" "v1.9.0" "m"
      rfl (Or.inl rfl) rfl (by decide) (by decide) rfl (by decide) rfl (by decide)
      (by decide) (by decide) rfl rfl
  · exact claim_C6_duplicate_tag_rejected_before_merge.2 "1.9.0" (by decide)

/-- The candidate set `detectBranch` scans when no explicit `--branch` is
given: the existing `release/*` branches when no type or type `release` is
requested, followed by the existing `hotfix/*` branches when no type or type
`hotfix` is requested. -/
def candidatesOf (ty : Option String) (branches : List String) : List String :=
  (if !truthy ty || ty = some "release" then branches.filter (globMatch "release/*") else []) ++
    (if !truthy ty || ty = some "hotfix" then branches.filter (globMatch "hotfix/*") else [])

/-- The tail of `detectBranch` once the candidate set is known: fail on zero
candidates, auto-select a single one, fail on several in non-interactive
mode, otherwise print the numbered menu and return the chosen candidate. -/
def detectBranchFrom (opts : Opts) (cands : List String) : M String := do
  if cands.isEmpty then fatal .noBranchesFound
  else if cands.length = 1 then pure cands.headI
  else do
    let isCI ← getCI
    if opts.yes || isCI then fatal .multipleBranches
    else do
      showLine "\nSelect branch to finalize:"
      showLines (menuLines cands)
      let answer ← promptTextSync "Enter choice: "
      match jsNumber answer with
      | none => fatal .invalidSelection
      | some n =>
        if (n : Int) - 1 < 0 || (n : Int) - 1 ≥ cands.length then
          fatal .invalidSelection
        else pure (cands.getD (n - 1) "")

/-- With no explicit `--branch` and well-formed branch names, `detectBranch`
scans `release/*` then `hotfix/*` and continues on the candidate set
`candidatesOf`. -/
theorem detectBranch_run (opts : Opts) (e : Eff)
    (hbr : opts.branch = none)
    (hwf : ∀ s ∈ e.repo.branches, cleanName s = true) :
    detectBranch opts e =
      detectBranchFrom opts (candidatesOf opts.ty e.repo.branches)
        ((e.exec (.branchList "release/*")).exec (.branchList "hotfix/*")) := by
  have h1 := listBranches_run "release/*" e hwf
  have h2 := listBranches_run "hotfix/*" (e.exec (.branchList "release/*")) hwf
  have hf : truthy (none : Option String) = false := rfl
  unfold detectBranch
  rw [hbr, hf]
  simp only [Bool.false_eq_true, if_false]
  rw [bind_apply, h1]
  dsimp only
  rw [bind_apply, h2]
  dsimp only
  rfl

set_option maxHeartbeats 1600000 in
/-- **C7.** Finalize branch resolution without an explicit `--branch` (over a
branch list of well-formed git ref names): the candidate set is the existing
`release/*` and `hotfix/*` branches restricted to the requested type; zero
candidates is a fatal no-branches error, exactly one candidate is
auto-selected, multiple candidates in non-interactive mode (`--yes` or CI)
fail with the ambiguous-branch error, and multiple candidates in interactive
mode print a numbered menu of exactly the candidates and return the chosen
one; with a requested type `release` every candidate (hence every menu entry)
lies under `release/`. -/
theorem claim_C7_finalize_branch_resolution (opts : Opts) (e : Eff)
    (hbr : opts.branch = none)
    (hwf : ∀ s ∈ e.repo.branches, cleanName s = true) :
    (candidatesOf opts.ty e.repo.branches = [] →
      detectBranch opts e = .exit 1
        (((e.exec (.branchList "release/*")).exec (.branchList "hotfix/*")).log
          .error .noBranchesFound)) ∧
    (∀ b, candidatesOf opts.ty e.repo.branches = [b] →
      detectBranch opts e = .ok b
        ((e.exec (.branchList "release/*")).exec (.branchList "hotfix/*"))) ∧
    (2 ≤ (candidatesOf opts.ty e.repo.branches).length →
      (opts.yes = true ∨ e.ci = true) →
      detectBranch opts e = .exit 1
        (((e.exec (.branchList "release/*")).exec (.branchList "hotfix/*")).log
          .error .multipleBranches)) ∧
    (2 ≤ (candidatesOf opts.ty e.repo.branches).length →
      opts.yes = false → e.ci = false →
      ∀ (ans : String) (rest : List String), e.stdin = ans :: rest →
      ∀ n : Nat, jsNumber (jsTrim ans) = some n → 1 ≤ n →
      n ≤ (candidatesOf opts.ty e.repo.branches).length →
      detectBranch opts e =
        .ok ((candidatesOf opts.ty e.repo.branches).getD (n - 1) "")
          { repo := e.repo
            executed := e.executed ++ [GCmd.branchList "release/*", GCmd.branchList "hotfix/*"]
            logs := e.logs
            stdin := rest
            shown := e.shown ++ "\nSelect branch to finalize:" ::
              (menuLines (candidatesOf opts.ty e.repo.branches) ++ ["Enter choice: "])
            today := e.today
            ci := e.ci }) ∧
    (opts.ty = some "release" →
      ∀ b ∈ candidatesOf opts.ty e.repo.branches, jsStartsWith b "release/" = true) := by
  have hrun := detectBranch_run opts e hbr hwf
  refine ⟨?_, ?_, ?_, ?_, ?_⟩
  · intro heq
    rw [hrun, heq]
    simp [detectBranchFrom, fatal, bind_apply, pure_apply, Eff.log, Eff.exec, execCmd]
  · intro b heq
    rw [hrun, heq]
    simp [detectBranchFrom, bind_apply, pure_apply]
  · intro hlen hni
    have hnib : (opts.yes || e.ci) = true := by rcases hni with h | h <;> simp [h]
    rw [hrun]
    rcases hcand : candidatesOf opts.ty e.repo.branches with _ | ⟨c0, cs⟩
    · rw [hcand] at hlen; simp at hlen
    · rcases cs with _ | ⟨c1, cs1⟩
      · rw [hcand] at hlen; simp at hlen
      · simp [detectBranchFrom, fatal, getCI, bind_apply, pure_apply, hni,
          Eff.log, Eff.exec, execCmd]
  · intro hlen hyes hci ans rest hstdin n hn hn1 hn2
    rw [hrun]
    rcases hcand : candidatesOf opts.ty e.repo.branches with _ | ⟨c0, cs⟩
    · rw [hcand] at hlen; simp at hlen
    · rcases cs with _ | ⟨c1, cs1⟩
      · rw [hcand] at hlen; simp at hlen
      · rw [hcand] at hn2
        have hz : ¬(n = 0) := by omega
        have hle : ¬((cs1.length : Int) + 1 + 1 ≤ (n : Int) - 1) := by
          have : n ≤ cs1.length + 2 := by simpa using hn2
          omega
        simp [detectBranchFrom, fatal, getCI, bind_apply, pure_apply, hyes, hci,
          showLine, showLines, promptTextSync, promptText, hstdin, hn, hz, hle,
          Eff.log, Eff.exec, execCmd]
  · intro hty b hb
    simp [candidatesOf, hty, truthy] at hb
    exact hb.2

theorem claim_C7_finalize_branch_resolution_witness :
    detectBranch { ty := some "release", branch := none }
        (cleanEff ["release/v1.10.0", "release/v1.11.0", "hotfix/v1.9.1", "main"]
          [] none "" none none ["2"] "2026-01-01" false) =
      .ok ((candidatesOf (some "release")
          ["release/v1.10.0", "release/v1.11.0", "hotfix/v1.9.1", "main"]).getD (2 - 1) "")
        { repo := (cleanEff ["release/v1.10.0", "release/v1.11.0", "hotfix/v1.9.1", "main"]
            [] none "" none none ["2"] "2026-01-01" false).repo
          executed := [GCmd.branchList "release/*", GCmd.branchList "hotfix/*"]
          logs := []
          stdin := []
          shown := "\nSelect branch to finalize:" ::
            (menuLines (candidatesOf (some "release")
              ["release/v1.10.0", "release/v1.11.0", "hotfix/v1.9.1", "main"]) ++
              ["Enter choice: "])
          today := "2026-01-01"
          ci := false } ∧
    (∀ b ∈ candidatesOf (some "release")
        ["release/v1.10.0", "release/v1.11.0", "hotfix/v1.9.1", "main"],
      jsStartsWith b "release/" = true) := by
  have h := claim_C7_finalize_branch_resolution { ty := some "release", branch := none }
    (cleanEff ["release/v1.10.0", "release/v1.11.0", "hotfix/v1.9.1", "main"]
      [] none "" none none ["2"] "2026-01-01" false) rfl (by decide)
  refine ⟨?_, h.2.2.2.2 rfl⟩
  have h4 := h.2.2.2.1 (by decide) rfl rfl "2" [] rfl 2 (by decide) (by decide) (by decide)
  simpa [cleanEff] using h4

/-- The finalize workflow does extract the version from the branch name and
uses it for the tag, but a divergence from `version.txt` is *not* reported: a
concrete finalize run on `release/v1.10.0` with `version.txt` holding `1.9.0`
succeeds, tags `v1.10.0`, leaves `version.txt` untouched and logs no warning
at all. -/
theorem claim_C2_finalize_version_counterexample :
    ∃ e', mainFinalize
        { branch := some "release/v1.10.0", offline := true, noChangelog := true }
        (cleanEff ["main", "develop", "release/v1.10.0"] [] none "" none (some "1.9.0")
          [] "2026-01-01" false) = .ok () e' ∧
      e'.repo.tags = ["v1.10.0"] ∧
      e'.repo.versionTxt = some "1.9.0" ∧
      versionSuffixMatch "release/v1.10.0" = some "1.10.0" ∧
      "1.10.0" ≠ "1.9.0" ∧
      e'.logs.all (fun l => !(l.kind == LogKind.warn)) = true := by
  refine ⟨_, rfl, ?_, ?_, ?_, ?_, ?_⟩ <;> decide

set_option maxHeartbeats 1600000 in
/-- **C2 (amended).** In the finalize workflow (`release-finalize.js`), the
version used for the tag and the tag message is extracted from the target
branch name by `v(\d+\.\d+\.\d+)$` and is authoritative, but `version.txt` is
never consulted and no warning is ever logged on divergence: the same run
succeeds with the branch-derived tag for *every* `version.txt` contents,
leaving it untouched and logging no warn-level line.  The divergence warning
exists only in the alternate finalizer (`part_008`), where it is the
`version.txt` version that is authoritative: its `requireBranchVersion` only
warns when the branch suffix differs, and its `createTag` tags
`v<version.txt version>`. -/
theorem claim_C2_finalize_version_amended :
    (∀ (branches : List String) (d : Option String) (lg : String)
        (cl vtxt : Option String) (stdin : List String) (today : String),
      "main" ∈ branches → "develop" ∈ branches → "release/v1.10.0" ∈ branches →
      ∃ e', mainFinalize
          { branch := some "release/v1.10.0", offline := true, noChangelog := true }
          (cleanEff branches [] d lg cl vtxt stdin today false) = .ok () e' ∧
        e'.repo.tags = ["v1.10.0"] ∧
        e'.repo.versionTxt = vtxt ∧
        (∀ l ∈ e'.logs, l.kind ≠ LogKind.warn)) ∧
    (∀ (branch fv bv : String) (e : Eff),
      versionSuffixMatch branch = some bv →
      fin8RequireBranchVersion branch fv e =
        .ok () (if bv ≠ fv then e.log .warn (.branchVersionDiffers bv fv) else e)) ∧
    (∀ (fv : String) (opts : Opts) (e : Eff), opts.dryRun = false →
      fin8CreateTag fv opts e =
        .ok () ((e.exec (.tagAnnotate ("v" ++ fv) ("Release version " ++ fv))).log
          .success (.note ("Created tag " ++ ("v" ++ fv)))) ∧
      (e.exec (.tagAnnotate ("v" ++ fv) ("Release version " ++ fv))).repo.tags =
        e.repo.tags ++ ["v" ++ fv]) := by
  refine ⟨?_, ?_, ?_⟩
  · intro branches d lg cl vtxt stdin today hmain hdev hrel
    have hvm : versionSuffixMatch "release/v1.10.0" = some "1.10.0" := rfl
    have hbt : branchType "release/v1.10.0" = "release" := rfl
    simp [cleanEff, mainFinalize, detectBranch, ensureBranchMatchesType, hbt, hvm,
      handleRelease, handleReleaseFinish, ensureGitFlowAvailable,
      ensureGitFlowInitialized, ensureCleanTree, ensureBranchExists,
      ensureTagMissing, refNameOf, stripLeadingV, jsStartsWith, exit1, getCI,
      runGit, runGitFlow, execCmd, Eff.exec, Eff.log, Eff.info, bind_apply,
      pure_apply, fatal, fatalU, logI, logW, logS, logE, showLine, truthy, jsOr,
      joinLines, splitCh, hmain, hdev, hrel,
      Bool.not_true, Bool.not_false, if_true, if_false,
      List.append_nil, List.nil_append]
  · intro branch fv bv e hvm
    simp [fin8RequireBranchVersion, hvm, logW, bind_apply, pure_apply]
    split <;> simp_all [logW, Eff.log]
  · intro fv opts e hdry
    refine ⟨?_, ?_⟩
    · simp [fin8CreateTag, runGit, hdry, execCmd, Eff.exec, Eff.log, logS,
        bind_apply, pure_apply]
    · simp [Eff.exec, execCmd]

theorem claim_C2_finalize_version_amended_witness :
    (∃ e', mainFinalize
        { branch := some "release/v1.10.0", offline := true, noChangelog := true }
        (cleanEff ["main", "develop", "release/v1.10.0"] [] none "" none (some "1.8.2")
          [] "2026-01-01" false) = .ok () e' ∧
      e'.repo.tags = ["v1.10.0"] ∧
      e'.repo.versionTxt = some "1.8.2" ∧
      (∀ l ∈ e'.logs, l.kind ≠ LogKind.warn)) ∧
    (fin8RequireBranchVersion "release/v1.10.0" "1.9.0"
        (cleanEff [] [] none "" none none [] "2026-01-01" false) =
      .ok () (if "1.10.0" ≠ "1.9.0" then
        (cleanEff [] [] none "" none none [] "2026-01-01" false).log .warn
          (.branchVersionDiffers "1.10.0" "1.9.0")
      else (cleanEff [] [] none "" none none [] "2026-01-01" false))) ∧
    (fin8CreateTag "1.9.0" {} (cleanEff [] [] none "" none none [] "2026-01-01" false) =
      .ok () (((cleanEff [] [] none "" none none [] "2026-01-01" false).exec
          (.tagAnnotate ("v" ++ "1.9.0") ("Release version " ++ "1.9.0"))).log
        .success (.note ("Created tag " ++ ("v" ++ "1.9.0"))))) := by
  refine ⟨?_, ?_, ?_⟩
  · exact claim_C2_finalize_version_amended.1 ["main", "develop", "release/v1.10.0"]
      none "" none (some "1.8.2") [] "2026-01-01" (by decide) (by decide) (by decide)
  · exact claim_C2_finalize_version_amended.2.1 "release/v1.10.0" "1.9.0" "1.10.0" _ rfl
  · exact (claim_C2_finalize_version_amended.2.2 "1.9.0" {} _ rfl).1

set_option maxHeartbeats 1600000 in
/-- **C1.** Dry-run mode performs zero mutating side effects: the adapter
logs the would-be command and returns an empty string instead of running it;
the `version.txt` write and the changelog write are skipped (both report
"no change"); every lifecycle handler invoked with `--dry-run` is a read-only
run (`RO`): the repository snapshot is unchanged and only non-mutating
commands are ever executed; and a successful `release start --dry-run`
creates no branch — a subsequent existence probe for the would-be branch
still returns absent. -/
theorem claim_C1_dry_run_zero_mutations :
    (∀ (c : GCmd) (o : RunOpts) (e : Eff), o.dryRun = true →
      runGit c o e = .ok (some "") (e.info (.dryRunCmd c))) ∧
    (∀ (v content : String) (opts : Opts) (e : Eff), opts.dryRun = true →
      e.repo.versionTxt = some content →
      updateVersionFile v opts e = .ok false (e.log .info (.wouldWriteVersion v))) ∧
    (∀ (v : String) (opts : Opts) (e : Eff), opts.dryRun = true →
      ∃ e', appendChangelog v opts e = .ok false e' ∧ e'.repo = e.repo) ∧
    (∀ (action : Option String) (opts : Opts), opts.dryRun = true →
      RO (handleRelease action opts) ∧ RO (handleHotfix action opts) ∧
      RO (handleFinish opts) ∧ RO (handleStart opts)) ∧
    (∀ (branches tags : List String) (d : Option String) (lg : String)
        (stdin : List String) (today : String) (ci : Bool) (vtxt v : String),
      "develop" ∈ branches →
      validateVersion v = true → v ≠ "" →
      validateVersion (firstLineTrim vtxt) = true →
      ¬(compareVersions v (firstLineTrim vtxt) < 0) →
      ("release/" ++ ("v" ++ v)) ∉ branches →
      ∃ e', handleReleaseStart
          { dryRun := true, offline := true, noChangelog := true,
            version := some v, name := none }
          (cleanEff branches tags d lg none (some vtxt) stdin today ci) = .ok () e' ∧
        e'.repo = (cleanEff branches tags d lg none (some vtxt) stdin today ci).repo ∧
        (execCmd (.showRef ("release/" ++ ("v" ++ v))) e'.repo).1 = none) := by
  refine ⟨?_, ?_, ?_, ?_, ?_⟩
  · intro c o e h
    simp [runGit, h]
  · intro v content opts e h hv
    simp [updateVersionFile, getVersionTxt, hv, h, logI, Eff.info, bind_apply, pure_apply]
  · intro v opts e h
    by_cases hinc : strIncludes (e.repo.changelog.getD "") ("## v" ++ v) = true
    · exact ⟨_, appendChangelog_already v opts e hinc, by simp [Eff.log]⟩
    · refine ⟨_, appendChangelog_dry v opts e ?_ h, by simp [Eff.log]⟩
      simpa using hinc
  · intro action opts h
    exact ⟨RO.handleRelease action opts h, RO.handleHotfix action opts h,
      RO.handleFinish opts h, RO.handleStart opts h⟩
  · intro branches tags d lg stdin today ci vtxt v hdev hvv hvne hcur hge hmiss
    have hnc : branches.contains ("release/" ++ ("v" ++ v)) = false := by
      simpa using hmiss
    simp [cleanEff, handleReleaseStart, ensureCleanTree, ensureBranchExists,
      ensureBranchMissing, readVersion, promptVersion, getVersionTxt,
      updateVersionFile, commitChanges, changelogFileExists, refNameOf,
      runGit, runGitFlow, execCmd, Eff.exec, Eff.log, Eff.info, bind_apply,
      pure_apply, fatal, fatalU, logI, logW, logS, logE, truthy, jsOr,
      hdev, hvv, hvne, hcur, hge, hnc, hmiss,
      Bool.not_true, Bool.not_false, if_true, if_false,
      List.append_nil, List.nil_append]

theorem claim_C1_dry_run_zero_mutations_witness :
    (runGit GCmd.status { dryRun := true }
        (cleanEff [] [] none "" none none [] "2026-01-01" false) =
      .ok (some "")
        ((cleanEff [] [] none "" none none [] "2026-01-01" false).info
          (.dryRunCmd GCmd.status))) ∧
    (updateVersionFile "1.2.3" { dryRun := true }
        (cleanEff [] [] none "" none (some "1.2.2") [] "2026-01-01" false) =
      .ok false
        ((cleanEff [] [] none "" none (some "1.2.2") [] "2026-01-01" false).log
          .info (.wouldWriteVersion "1.2.3"))) ∧
    (∃ e', appendChangelog "1.2.3" { dryRun := true }
        (cleanEff [] [] none "" none none [] "2026-01-01" false) = .ok false e' ∧
      e'.repo = (cleanEff [] [] none "" none none [] "2026-01-01" false).repo) ∧
    (RO (handleRelease (some "start") { dryRun := true }) ∧
      RO (handleHotfix (some "finish") { dryRun := true }) ∧
      RO (handleFinish { dryRun := true }) ∧ RO (handleStart { dryRun := true })) ∧
    (∃ e', handleReleaseStart
        { dryRun := true, offline := true, noChangelog := true,
          version := some "1.3.0", name := none }
        (cleanEff ["develop", "main"] [] none "" none (some "1.2.2") [] "2026-01-01"
          false) = .ok () e' ∧
      e'.repo = (cleanEff ["develop", "main"] [] none "" none (some "1.2.2") []
        "2026-01-01" false).repo ∧
      (execCmd (.showRef ("release/" ++ ("v" ++ "1.3.0"))) e'.repo).1 = none) := by
  refine ⟨?_, ?_, ?_, ?_, ?_⟩
  · exact claim_C1_dry_run_zero_mutations.1 GCmd.status { dryRun := true } _ rfl
  · exact claim_C1_dry_run_zero_mutations.2.1 "1.2.3" "1.2.2" { dryRun := true } _ rfl rfl
  · exact claim_C1_dry_run_zero_mutations.2.2.1 "1.2.3" { dryRun := true } _ rfl
  · have h1 := claim_C1_dry_run_zero_mutations.2.2.2.1 (some "start") { dryRun := true } rfl
    have h2 := claim_C1_dry_run_zero_mutations.2.2.2.1 (some "finish") { dryRun := true } rfl
    exact ⟨h1.1, h2.2.1, h1.2.2.1, h1.2.2.2⟩
  · exact claim_C1_dry_run_zero_mutations.2.2.2.2 ["develop", "main"] [] none "" []
      "2026-01-01" false "1.2.2" "1.3.0" (by decide) (by decide) (by decide)
      (by decide) (by decide) (by decide)

end GitFlowSpec
